import Mathlib

/-!
# A TFTP read server: the transfer loop, the reliable send and the dispatcher

A shallow embedding of `server/read.go` (`HandleReadReq`, `sendDataPacket`)
and `server/server.go` (`HandleClient`, `Serve`).

* The socket, the file and the clock are explicit inputs: a function returns
  what it wrote and what it returned.
* Time is counted in nanoseconds (the unit of `time.Duration`) from the
  moment `sendDataPacket` arms its deadline. How long the program takes
  between two timer operations is an input (`ConnEnv.lat`), and so is the
  time at which the listener is done with each datagram.
* Where `select` finds several channels ready, Go picks one of them at
  random: the pick is an input too (`ConnEnv.want`).
* The package `pkt` is not among the sources: its two functions are
  parameters (`Codec`), its packet types follow the specification.
* A loop that need not end carries a step budget; running out of it is the
  result `Ret.blocked`.
-/

namespace Tftp

/-! ## Data model -/

/-- One octet of a datagram or of a file. -/
abbrev Byte := Fin 256

/-- The values of Go's `error` that the server tells apart: `io.EOF`,
`ErrTimeout`, `pkt.ErrPacketType`, and any other error (of the codec, the
socket or the storage), identified by a number. -/
inductive GoError where
  | EOF
  | ErrTimeout
  | ErrPacketType
  | other (code : Nat)
  deriving DecidableEq, Repr

/-- What a call has done when the observation stops: it is still running
(`blocked`), it returned `err` (`none` is Go's `nil`), or the Go runtime
stopped it with a panic. -/
inductive Ret where
  | blocked
  | returned (err : Option GoError)
  | panicked
  deriving DecidableEq, Repr

/-- The `pkt.DataPacket` of the source: `Data` and `BlockNum` (a `uint16`,
kept below `65536` by the code that builds it). -/
structure DataPacket where
  Data : List Byte
  BlockNum : Nat
  deriving DecidableEq, Repr

/-- Modelled from the spec: the request packet `pkt.ReqPacket` of the absent
`pkt` package (section 3): the opcode that `GetType` returns, the file name
and the transfer mode. -/
structure ReqPacket where
  Opcode : Nat
  Filename : String
  Mode : String
  deriving DecidableEq, Repr

/-- Modelled from the spec: the closed set of packet variants of the `pkt`
package, which is not among the sources (section 3, "Packet"): a request with
its opcode, file name and mode, a data block, an acknowledgment and an error
packet. -/
inductive Packet where
  | req (r : ReqPacket)
  | data (d : DataPacket)
  | ack (blocknum : Nat)
  | error (code : Nat) (msg : String)
  deriving DecidableEq, Repr

/-- Modelled from the spec: the opcode of a read request (section 6, wire
table), the constant `pkt.RRQ` of the absent `pkt` package. -/
def RRQ : Nat := 1

/-- Modelled from the spec: the opcode of a write request (section 6, wire
table), the constant `pkt.WRQ` of the absent `pkt` package. -/
def WRQ : Nat := 2

/-- The two functions of the absent `pkt` package that the server calls, taken
as parameters: `pkt.ParsePacket` and `(*pkt.DataPacket).Bytes`. -/
structure Codec where
  ParsePacket : List Byte → Except GoError Packet
  Bytes : DataPacket → List Byte

/-- The package variables `AckTimeout` and `RetransmitTime`, in nanoseconds. -/
structure Config where
  AckTimeout : Nat
  RetransmitTime : Nat
  deriving DecidableEq, Repr

/-- The defaults of `server.go`: 20 seconds and 5 seconds. -/
def defaultConfig : Config :=
  { AckTimeout := 20 * 1000000000, RetransmitTime := 5 * 1000000000 }

/-- One return of `con.ReadFromUDP`: a datagram, or an error. -/
inductive Recv where
  | dgram (bs : List Byte)
  | fail (e : GoError)
  deriving DecidableEq, Repr

/-- The three cases of the `select` of `sendDataPacket`, in source order. -/
inductive SelCase where
  | maxtimeout
  | retransmit
  | ackch
  deriving DecidableEq, Repr

/-- What the peer-connected socket and the scheduler do during one call of
`sendDataPacket`:
* `writeErr j` is the error of the `j`-th `con.Write` of the call (`0` is the
  first transmission), `none` for success;
* `recv` lists the returns of `con.ReadFromUDP` in order, each with the time
  at which the listener is done with it; after the last one the read blocks
  for good;
* `want j` is the case that the `select` reached after `j` writes takes if
  that case is ready (if it is not, the first ready case in source order is
  taken);
* `lat 0` is the time from arming the deadline (line 76) to arming the first
  retransmit timer (line 112), and `lat j` for `j > 0` the time the `j`-th
  write of the call takes: from the `select` taking the retransmit case,
  through the log line and `con.Write`, to the timer being armed again
  (lines 118-123). -/
structure ConnEnv where
  writeErr : Nat → Option GoError
  recv : List (Nat × Recv)
  want : Nat → SelCase
  lat : Nat → Nat

/-! ## `sendDataPacket` -/

/-- The goroutine of `sendDataPacket` (lines 80-109): it reads datagrams into a
256-byte buffer until one settles the wait, and sends one value on `ackch`.
The result is that value and the time of the read that produced it; `none`
when the reads run out before any value is sent. -/
def listen (P : Codec) (blocknum : Nat) : List (Nat × Recv) → Option (Nat × Option GoError)
  | [] => none
  | (t, Recv.fail e) :: _ => some (t, some e)
  | (t, Recv.dgram bs) :: rest =>
    match P.ParsePacket (bs.take 256) with
    | .error e => some (t, some e)
    | .ok (Packet.ack n) =>
      if n ≠ blocknum then listen P blocknum rest else some (t, none)
    | .ok _ => some (t, some GoError.ErrPacketType)

/-- The earliest of the deadline, the retransmit timer and the value on
`ackch`. -/
def firstReady (deadline rt : Nat) (ack : Option (Nat × Option GoError)) : Nat :=
  match ack with
  | none => min deadline rt
  | some (ta, _) => min (min deadline rt) ta

/-- The moment at which the `select` entered at time `now` proceeds: at once
if a case is ready, else when the first one becomes ready. -/
def wakeTime (now deadline rt : Nat) (ack : Option (Nat × Option GoError)) : Nat :=
  max now (firstReady deadline rt ack)

/-- Whether a case of the `select` can proceed at time `t`. -/
def ready (deadline rt : Nat) (ack : Option (Nat × Option GoError)) (t : Nat) : SelCase → Bool
  | .maxtimeout => decide (deadline ≤ t)
  | .retransmit => decide (rt ≤ t)
  | .ackch =>
    match ack with
    | none => false
    | some (ta, _) => decide (ta ≤ t)

/-- Go's `select`: one of the cases that can proceed. -/
def selectCase (want : SelCase) (rdy : SelCase → Bool) : SelCase :=
  if rdy want then want
  else if rdy .maxtimeout then .maxtimeout
  else if rdy .retransmit then .retransmit
  else .ackch

/-- What one call of `sendDataPacket` did: the datagrams it wrote to the
socket, in order, its return, and the time of the return. -/
structure SendResult where
  writes : List (List Byte)
  ret : Ret
  time : Nat
  deriving DecidableEq, Repr

/-- The case `err := <-ackch` of the `select`, taken at time `t`: the value
the listener sent is returned (there is none to take while the listener has
sent nothing). -/
def recvAckch (ack : Option (Nat × Option GoError)) (t : Nat) : SendResult :=
  match ack with
  | some (_, err) => ⟨[], Ret.returned err, t⟩
  | none => ⟨[], Ret.blocked, t⟩

/-- The loop "retransmit until ack or timeout" (lines 113-127), whose `select`
is entered at time `now`, the moment at which the retransmit timer was armed
for `cfg.RetransmitTime`; `j` counts the writes done so far. The deadline
`maxtimeout` was armed once, at time `0`, for `cfg.AckTimeout`. A
retransmission takes `E.lat j`, after which the timer is armed again. -/
def selectLoop (cfg : Config) (E : ConnEnv) (bytes : List Byte)
    (ack : Option (Nat × Option GoError)) : Nat → Nat → Nat → SendResult
  | 0, _, _ => ⟨[], Ret.blocked, 0⟩
  | fuel + 1, j, now =>
    let t := wakeTime now cfg.AckTimeout (now + cfg.RetransmitTime) ack
    match selectCase (E.want j)
        (ready cfg.AckTimeout (now + cfg.RetransmitTime) ack t) with
    | .maxtimeout => ⟨[], Ret.returned (some GoError.ErrTimeout), t⟩
    | .retransmit =>
      match E.writeErr j with
      | some e => ⟨[], Ret.returned (some e), t + E.lat j⟩
      | none =>
        let r := selectLoop cfg E bytes ack fuel (j + 1) (t + E.lat j)
        ⟨bytes :: r.writes, r.ret, r.time⟩
    | .ackch => recvAckch ack t

/-- The function `sendDataPacket` (lines 68-128): write the block, arm the
deadline, start the listener, arm the retransmit timer and loop. A write that
fails puts nothing on the wire. -/
def sendDataPacket (cfg : Config) (P : Codec) (fuel : Nat) (E : ConnEnv) (d : DataPacket) :
    SendResult :=
  match E.writeErr 0 with
  | some e => ⟨[], Ret.returned (some e), 0⟩
  | none =>
    let r := selectLoop cfg E (P.Bytes d) (listen P d.BlockNum E.recv) fuel 1 (E.lat 0)
    ⟨P.Bytes d :: r.writes, r.ret, r.time⟩

/-! ## `HandleReadReq` -/

/-- An `io.Reader` with states in `σ`: `Read st p` is the call `fi.Read(buf)`
on a buffer of `p` bytes. It returns the bytes stored at the front of the
buffer (their number is the `n` of the source), the error, and the next
state. -/
structure Reader (σ : Type) where
  Read : σ → Nat → List Byte × Option GoError × σ

/-- A `net.UDPAddr`: the IP address in its textual form (empty for no
address), the port, and the IPv6 zone (empty for none). -/
structure UDPAddr where
  IP : String
  Port : Nat
  Zone : String
  deriving DecidableEq, Repr

/-- The function `net.JoinHostPort` of the Go library: a host that contains a
colon, a literal IPv6 address, is put in brackets. -/
def JoinHostPort (host port : String) : String :=
  if host.toList.contains ':' then "[" ++ host ++ "]:" ++ port else host ++ ":" ++ port

/-- The method `String` of a `net.UDPAddr` in the Go library: host and port
joined, the zone appended to the host after a percent sign. -/
def UDPAddr.String (a : UDPAddr) : String :=
  if a.Zone ≠ "" then JoinHostPort (a.IP ++ "%" ++ a.Zone) (toString a.Port)
  else JoinHostPort a.IP (toString a.Port)

/-- The `Server` of `server.go`. `ReadFunc` opens a file and gives the initial
state of its reader, whose method `Read` is `fi`. The field `WriteFunc`
belongs to the write path, which is not among the sources. -/
structure Server (σ : Type) where
  servdir : String
  ReadFunc : String → Except GoError σ
  fi : Reader σ
  ReadOnly : Bool

/-- The operating system as one session sees it: `net.ResolveUDPAddr`, the
error of `net.DialUDP`, and, for the `i`-th call of `sendDataPacket` of the
session (from `0`), what the socket does during that call. -/
structure World where
  ResolveUDPAddr : String → Except GoError UDPAddr
  dialErr : UDPAddr → UDPAddr → Option GoError
  conn : Nat → ConnEnv

/-- One call of `sendDataPacket` made by `HandleReadReq`: the packet handed
over, the datagrams written during the call, and what the call returned. -/
structure SendRecord where
  pkt : DataPacket
  writes : List (List Byte)
  ret : Ret
  deriving DecidableEq, Repr

/-- What one session did: its calls of `sendDataPacket` in order, and the
return of `HandleReadReq`. -/
structure Transfer where
  calls : List SendRecord
  ret : Ret
  deriving DecidableEq, Repr

/-- The loop of `HandleReadReq` (lines 40-61), entered with the reader in
state `st`, the slice `buf`, the flag `done`, the counter `blknum` and `i`
calls of `sendDataPacket` already made. The counter is a `uint16`: `blknum++`
wraps at `65536`. The capacity of `buf` stays 512, so `buf[:n]` panics for
`n > 512`. -/
def readLoop {σ : Type} (cfg : Config) (P : Codec) (fi : Reader σ) (conn : Nat → ConnEnv)
    (sendFuel : Nat) : Nat → σ → List Byte → Bool → Nat → Nat → Transfer
  | 0, _, _, _, _, _ => ⟨[], Ret.blocked⟩
  | fuel + 1, st, buf, done, blknum, i =>
    if buf.length = 512 ∧ done = false then
      match fi.Read st buf.length with
      | (bs, err, st') =>
        if err ≠ none ∧ err ≠ some GoError.EOF then ⟨[], Ret.returned err⟩
        else
          let done' := if err = some GoError.EOF then true else done
          if 512 < bs.length then ⟨[], Ret.panicked⟩
          else
            let data : DataPacket := { Data := bs, BlockNum := blknum }
            let r := sendDataPacket cfg P sendFuel (conn i) data
            match r.ret with
            | Ret.returned none =>
              let rest := readLoop cfg P fi conn sendFuel fuel st' bs done'
                ((blknum + 1) % 65536) (i + 1)
              ⟨⟨data, r.writes, r.ret⟩ :: rest.calls, rest.ret⟩
            | other => ⟨[⟨data, r.writes, r.ret⟩], other⟩
    else ⟨[], Ret.returned none⟩

/-- The function `Server.HandleReadReq` (lines 14-64). -/
def HandleReadReq {σ : Type} (cfg : Config) (P : Codec) (s : Server σ) (W : World) (fuel : Nat)
    (rrq : ReqPacket) (addr : UDPAddr) : Transfer :=
  match W.ResolveUDPAddr ":0" with
  | .error e => ⟨[], Ret.returned (some e)⟩
  | .ok listaddr =>
    match W.dialErr listaddr addr with
    | some e => ⟨[], Ret.returned (some e)⟩
    | none =>
      match s.ReadFunc (s.servdir ++ "/" ++ rrq.Filename) with
      | .error e => ⟨[], Ret.returned (some e)⟩
      | .ok st => readLoop cfg P s.fi W.conn fuel fuel st (List.replicate 512 0) false 1 0

/-! ## `HandleClient` and `Serve` -/

/-- The constant `TftpMaxPacketSize` of `server.go`. -/
def TftpMaxPacketSize : Nat := 1468

/-- What `HandleClient` did with one packet: it only logged (`dropped`), it
called `HandleReadReq` with a request and an address (`tr` is what that call
did), or it called `HandleWriteReq`, which is not among the sources. -/
inductive Handled where
  | dropped
  | read (rrq : ReqPacket) (clientaddr : UDPAddr) (tr : Transfer)
  | write (wrq : ReqPacket) (clientaddr : UDPAddr)
  deriving DecidableEq, Repr

/-- The function `Server.HandleClient` (lines 59-90). -/
def HandleClient {σ : Type} (cfg : Config) (P : Codec) (s : Server σ) (W : World) (fuel : Nat)
    (addr : UDPAddr) (req : Packet) : Handled :=
  match req with
  | Packet.req reqpkt =>
    match W.ResolveUDPAddr addr.String with
    | .error _ => Handled.dropped
    | .ok clientaddr =>
      if reqpkt.Opcode = RRQ then
        Handled.read reqpkt clientaddr (HandleReadReq cfg P s W fuel reqpkt clientaddr)
      else if reqpkt.Opcode = WRQ then Handled.write reqpkt clientaddr
      else Handled.dropped
  | _ => Handled.dropped

/-- What the listening socket and the system do for `Serve`: the two calls
that open the socket, the returns of `uconn.ReadFromUDP` in order (a datagram
with its sender, or an error; after the last one the read blocks for good),
and the world in which the goroutine started for the `k`-th return runs. -/
structure ServeEnv where
  ResolveUDPAddr : String → Except GoError UDPAddr
  listenErr : UDPAddr → Option GoError
  recv : List (Except GoError (List Byte × UDPAddr))
  session : Nat → World

/-- What `Serve` did: the goroutines `go s.HandleClient(ua, packet)` it
started, in order, each with what it did, and the return of `Serve`. A panic
inside a goroutine, which in Go ends the whole process, shows in the record of
that goroutine only. -/
structure ServeResult where
  spawned : List Handled
  ret : Ret
  deriving DecidableEq, Repr

/-- The receive loop of `Serve` (lines 105-122); `k` counts the returns of
`ReadFromUDP` so far. -/
def serveLoop {σ : Type} (cfg : Config) (P : Codec) (s : Server σ) (session : Nat → World)
    (fuel : Nat) : List (Except GoError (List Byte × UDPAddr)) → Nat → ServeResult
  | [], _ => ⟨[], Ret.blocked⟩
  | .error e :: _, _ => ⟨[], Ret.returned (some e)⟩
  | .ok (dgram, ua) :: rest, k =>
    match P.ParsePacket (dgram.take TftpMaxPacketSize) with
    | .error _ => serveLoop cfg P s session fuel rest (k + 1)
    | .ok packet =>
      let r := serveLoop cfg P s session fuel rest (k + 1)
      ⟨HandleClient cfg P s (session k) fuel ua packet :: r.spawned, r.ret⟩

/-- The function `Server.Serve` (lines 94-123). -/
def Serve {σ : Type} (cfg : Config) (P : Codec) (s : Server σ) (E : ServeEnv) (fuel : Nat)
    (addr : String) : ServeResult :=
  match E.ResolveUDPAddr addr with
  | .error e => ⟨[], Ret.returned (some e)⟩
  | .ok uaddr =>
    match E.listenErr uaddr with
    | some e => ⟨[], Ret.returned (some e)⟩
    | none => serveLoop cfg P s E.session fuel E.recv 0

/-! ## Byte sources and environments used in the statements -/

/-- A reader over the bytes `rem st` still to be read that behaves like a
regular file on reads of 512 bytes: it delivers the next 512 bytes while that
many remain and all remaining bytes otherwise, it reports no error while bytes
remain, and on a read that finds none it reports `io.EOF` or nothing. -/
def FileSource {σ : Type} (fi : Reader σ) (rem : σ → List Byte) : Prop :=
  ∀ st, (fi.Read st 512).1 = (rem st).take 512 ∧
    (rem st ≠ [] → (fi.Read st 512).2.1 = none) ∧
    ((fi.Read st 512).2.1 = none ∨ (fi.Read st 512).2.1 = some GoError.EOF) ∧
    rem (fi.Read st 512).2.2 = (rem st).drop 512

/-- The reader of a file held in memory, as `os.File` and `bytes.Reader`
behave: the state is the list of the bytes not yet read. -/
def fileReader : Reader (List Byte) where
  Read := fun st p =>
    if st = [] then ([], some GoError.EOF, []) else (st.take p, none, st.drop p)

/-- A reader that reports `io.EOF` together with the last bytes, as the
contract of `io.Reader` allows. -/
def eagerReader : Reader (List Byte) where
  Read := fun st p =>
    (st.take p, if st.drop p = [] then some GoError.EOF else none, st.drop p)

/-- A reader that delivers at most `m` bytes per call (a pipe, a network
stream), as the contract of `io.Reader` allows; `io.EOF` comes with the read
that finds nothing. -/
def shortReader (m : Nat) : Reader (List Byte) where
  Read := fun st p =>
    if st = [] then ([], some GoError.EOF, [])
    else (st.take (min m p), none, st.drop (min m p))

/-- The contract of `io.Reader` on the number of bytes: `0 ≤ n ≤ len(p)`. -/
def ReaderOK {σ : Type} (fi : Reader σ) : Prop :=
  ∀ st p, (fi.Read st p).1.length ≤ p

/-- The function `io.ReadAll` on a reader: everything it delivers up to the
first error, within `fuel` reads of 512 bytes. -/
def readAll {σ : Type} (fi : Reader σ) : Nat → σ → List Byte
  | 0, _ => []
  | fuel + 1, st =>
    match fi.Read st 512 with
    | (bs, err, st') => if err = none then bs ++ readAll fi fuel st' else bs

/-- During the call the peer acknowledges block `blocknum` in time: every
write succeeds, and the listener reads a matching ack, before anything that
is not an ack, early enough for a retransmission under way when it arrives to
be over before the deadline. -/
def Acked (cfg : Config) (P : Codec) (E : ConnEnv) (blocknum : Nat) : Prop :=
  (∀ j, E.writeErr j = none) ∧
    ∃ t, listen P blocknum E.recv = some (t, none) ∧ ∀ j, t + E.lat j < cfg.AckTimeout

/-- Every block of the session is acknowledged in time: the `i`-th call of
`sendDataPacket` carries block number `(i + 1) mod 65536`. -/
def AllAcked (cfg : Config) (P : Codec) (conn : Nat → ConnEnv) : Prop :=
  ∀ i, Acked cfg P (conn i) ((i + 1) % 65536)

/-- The item `x` read by the listener is an ack for another block than
`blocknum`. -/
def MismatchedAck (P : Codec) (blocknum : Nat) (x : Nat × Recv) : Prop :=
  ∃ bs n, x.2 = Recv.dgram bs ∧ P.ParsePacket (bs.take 256) = .ok (Packet.ack n) ∧ n ≠ blocknum

/-- The session gets its socket and its file: both address calls succeed and
`ReadFunc` opens the file in state `st`. -/
def Opens {σ : Type} (s : Server σ) (W : World) (rrq : ReqPacket) (addr : UDPAddr) (st : σ) :
    Prop :=
  ∃ listaddr, W.ResolveUDPAddr ":0" = .ok listaddr ∧ W.dialErr listaddr addr = none ∧
    s.ReadFunc (s.servdir ++ "/" ++ rrq.Filename) = .ok st

/-- The first `n` full blocks of `c` followed by the rest. -/
def chunks (c : List Byte) : Nat → List (List Byte)
  | 0 => [c]
  | n + 1 => c.take 512 :: chunks (c.drop 512) n

/-- The payloads of the transfer of a file `c`: its full blocks of 512 bytes,
then the remaining `c.length % 512` bytes. -/
def blocks (c : List Byte) : List (List Byte) :=
  chunks c (c.length / 512)

/-- A codec for concrete runs: an ack is the four octets `0 4 hi lo`, a data
packet is `0 3 hi lo` followed by the payload; nothing else decodes. -/
def sampleCodec : Codec where
  ParsePacket := fun bs =>
    match bs with
    | [0, 4, hi, lo] => .ok (Packet.ack (hi.val * 256 + lo.val))
    | 0 :: 3 :: hi :: lo :: rest => .ok (Packet.data ⟨rest, hi.val * 256 + lo.val⟩)
    | _ => .error (GoError.other 1)
  Bytes := fun d =>
    0 :: 3 :: Fin.ofNat (d.BlockNum / 256) :: Fin.ofNat d.BlockNum :: d.Data

/-- The datagram of an ack for block `n` in `sampleCodec`. -/
def ackBytes (n : Nat) : List Byte :=
  [0, 4, Fin.ofNat (n / 256), Fin.ofNat n]

/-- A peer that acknowledges the `i`-th block `t` nanoseconds after it was
sent; all writes succeed and take `l` nanoseconds. -/
def ackPeer (t l : Nat) (i : Nat) : ConnEnv where
  writeErr := fun _ => none
  recv := [(t, Recv.dgram (ackBytes ((i + 1) % 65536)))]
  want := fun _ => SelCase.ackch
  lat := fun _ => l

/-- A peer that never answers; all writes succeed and take `l` nanoseconds,
and a tie between the deadline and the retransmit timer goes to `tie`. -/
def silentPeer (tie : SelCase) (l : Nat) : ConnEnv where
  writeErr := fun _ => none
  recv := []
  want := fun _ => tie
  lat := fun _ => l

/-- A system in which opening the socket succeeds and the peer is `conn`. -/
def plainWorld (conn : Nat → ConnEnv) : World where
  ResolveUDPAddr := fun _ => .ok ⟨"0.0.0.0", 0, ""⟩
  dialErr := fun _ _ => none
  conn := conn

/-- A server over one file in memory, whatever the name asked for. -/
def memServer (fi : Reader (List Byte)) (content : List Byte) : Server (List Byte) where
  servdir := "/srv"
  ReadFunc := fun _ => .ok content
  fi := fi
  ReadOnly := true

/-- A peer that acknowledges the `i`-th block seven seconds after it was
sent, that is after one retransmission with the default timers; a write
takes 20 microseconds. -/
def latePeer : Nat → ConnEnv := ackPeer 7000000000 20000

/-- The state of the reader after `k` reads of 512 bytes from state `st`. -/
def readerAfter {σ : Type} (fi : Reader σ) (st : σ) : Nat → σ
  | 0 => st
  | k + 1 => (fi.Read (readerAfter fi st k) 512).2.2

/-- The first `k` rounds of the loop of `HandleReadReq` on the reader `fi`
from state `st` go through: each read fills the buffer of 512 bytes without
error, and each call of `sendDataPacket` returns `nil`. -/
def Progress {σ : Type} (cfg : Config) (P : Codec) (fi : Reader σ) (conn : Nat → ConnEnv)
    (sendFuel : Nat) (st : σ) (k : Nat) : Prop :=
  ∀ i, i < k →
    (fi.Read (readerAfter fi st i) 512).2.1 = none ∧
    (fi.Read (readerAfter fi st i) 512).1.length = 512 ∧
    (sendDataPacket cfg P sendFuel (conn i)
      ⟨(fi.Read (readerAfter fi st i) 512).1, (i + 1) % 65536⟩).ret = Ret.returned none

/-- A system that resolves the address string `[::1]:4242` of an IPv6 peer to
the address of that peer and any other string to the wildcard address;
opening the socket succeeds and the peer is `conn`. -/
def peerWorld (conn : Nat → ConnEnv) : World where
  ResolveUDPAddr := fun str =>
    if str = "[::1]:4242" then .ok ⟨"::1", 4242, ""⟩ else .ok ⟨"0.0.0.0", 0, ""⟩
  dialErr := fun _ _ => none
  conn := conn

/-- A listening socket on which three datagrams arrive, from three senders:
one that does not decode, an ack, and a read request for the file `f` from
the IPv6 peer `[::1]:4242`. -/
def sampleServe : ServeEnv where
  ResolveUDPAddr := fun _ => .ok ⟨"0.0.0.0", 69, ""⟩
  listenErr := fun _ => none
  recv := [.ok ([9, 9], ⟨"10.0.0.3", 5000, ""⟩), .ok (ackBytes 3, ⟨"10.0.0.4", 6000, ""⟩),
    .ok ([0, 1, 102, 0], ⟨"::1", 4242, ""⟩)]
  session := fun _ => peerWorld (ackPeer 1000000 0)

/-- The codec `sampleCodec` extended with one read request: the octets
`0 1 102 0` ask for the file `f`. -/
def requestCodec : Codec where
  ParsePacket := fun bs =>
    match bs with
    | [0, 1, 102, 0] => .ok (Packet.req ⟨RRQ, "f", "octet"⟩)
    | _ => sampleCodec.ParsePacket bs
  Bytes := sampleCodec.Bytes

/-- A reader over a file whose last, incomplete block cannot be read: it
delivers full buffers while enough bytes remain and then fails with a storage
error. -/
def brokenReader : Reader (List Byte) where
  Read := fun st p =>
    if st.length < p then ([], some (GoError.other 5), st) else (st.take p, none, st.drop p)

/-- A peer that acknowledges the first block after a millisecond and then
falls silent; a write takes 20 microseconds. -/
def droppingPeer (i : Nat) : ConnEnv :=
  if i = 0 then ackPeer 1000000 20000 0 else silentPeer SelCase.maxtimeout 20000

/-! ## Lemmas -/

theorem listen_skip (P : Codec) (blocknum t n : Nat) (bs : List Byte) (rest : List (Nat × Recv))
    (hp : P.ParsePacket (bs.take 256) = .ok (Packet.ack n)) (hn : n ≠ blocknum) :
    listen P blocknum ((t, Recv.dgram bs) :: rest) = listen P blocknum rest := by
  simp [listen, hp, hn]

theorem wakeTime_some (now d rt ta : Nat) (e : Option GoError) :
    wakeTime now d rt (some (ta, e)) = max now (min (min d rt) ta) := rfl

theorem wakeTime_none (now d rt : Nat) : wakeTime now d rt none = max now (min d rt) := rfl

theorem selectLoop_succ (cfg : Config) (E : ConnEnv) (bytes : List Byte)
    (ack : Option (Nat × Option GoError)) (fuel j now : Nat) :
    selectLoop cfg E bytes ack (fuel + 1) j now =
      match selectCase (E.want j) (ready cfg.AckTimeout (now + cfg.RetransmitTime) ack
          (wakeTime now cfg.AckTimeout (now + cfg.RetransmitTime) ack)) with
      | .maxtimeout =>
        ⟨[], Ret.returned (some GoError.ErrTimeout),
          wakeTime now cfg.AckTimeout (now + cfg.RetransmitTime) ack⟩
      | .retransmit =>
        match E.writeErr j with
        | some e =>
          ⟨[], Ret.returned (some e),
            wakeTime now cfg.AckTimeout (now + cfg.RetransmitTime) ack + E.lat j⟩
        | none =>
          ⟨bytes :: (selectLoop cfg E bytes ack fuel (j + 1)
              (wakeTime now cfg.AckTimeout (now + cfg.RetransmitTime) ack + E.lat j)).writes,
            (selectLoop cfg E bytes ack fuel (j + 1)
              (wakeTime now cfg.AckTimeout (now + cfg.RetransmitTime) ack + E.lat j)).ret,
            (selectLoop cfg E bytes ack fuel (j + 1)
              (wakeTime now cfg.AckTimeout (now + cfg.RetransmitTime) ack + E.lat j)).time⟩
      | .ackch => recvAckch ack (wakeTime now cfg.AckTimeout (now + cfg.RetransmitTime) ack) := by
  rw [selectLoop]

theorem selectLoop_writes (cfg : Config) (E : ConnEnv) (bytes : List Byte)
    (ack : Option (Nat × Option GoError)) :
    ∀ fuel j now, ∀ w ∈ (selectLoop cfg E bytes ack fuel j now).writes, w = bytes := by
  intro fuel
  induction fuel with
  | zero => intro j now w hw; simp [selectLoop] at hw
  | succ n ih =>
    intro j now w hw
    rw [selectLoop_succ] at hw
    split at hw
    · simp at hw
    · split at hw
      · simp at hw
      · simp only [List.mem_cons] at hw
        rcases hw with h | h
        · exact h
        · exact ih _ _ w h
    · cases ack <;> simp [recvAckch] at hw

/-- A value on `ackch` at time `ta`, early enough for a retransmission under
way to be over before the deadline, is what the loop returns, provided the
writes succeed and the `select` is entered before the deadline. -/
theorem selectLoop_acked (cfg : Config) (E : ConnEnv) (bytes : List Byte) (ta : Nat)
    (err : Option GoError) (hR : 0 < cfg.RetransmitTime) (hw : ∀ j, E.writeErr j = none)
    (hta : ∀ j, ta + E.lat j < cfg.AckTimeout) :
    ∀ n j now, now < cfg.AckTimeout → ta < now + cfg.RetransmitTime + n * cfg.RetransmitTime →
      (selectLoop cfg E bytes (some (ta, err)) (n + 1) j now).ret = Ret.returned err ∧
      ta ≤ (selectLoop cfg E bytes (some (ta, err)) (n + 1) j now).time ∧
      (selectLoop cfg E bytes (some (ta, err)) (n + 1) j now).time < cfg.AckTimeout ∧
      ((∀ i, E.lat i = 0) → now ≤ ta →
        (selectLoop cfg E bytes (some (ta, err)) (n + 1) j now).time = ta) := by
  have hta0 : ta < cfg.AckTimeout := lt_of_le_of_lt (Nat.le_add_right _ _) (hta 0)
  have key : ∀ j now k, now < cfg.AckTimeout → ta < now + cfg.RetransmitTime →
      (selectLoop cfg E bytes (some (ta, err)) (k + 1) j now).ret = Ret.returned err ∧
      ta ≤ (selectLoop cfg E bytes (some (ta, err)) (k + 1) j now).time ∧
      (selectLoop cfg E bytes (some (ta, err)) (k + 1) j now).time < cfg.AckTimeout ∧
      ((∀ i, E.lat i = 0) → now ≤ ta →
        (selectLoop cfg E bytes (some (ta, err)) (k + 1) j now).time = ta) := by
    intro j now k hnow h1
    have ht : wakeTime now cfg.AckTimeout (now + cfg.RetransmitTime) (some (ta, err)) =
        max now ta := by
      rw [wakeTime_some]; omega
    rw [selectLoop_succ, ht]
    generalize E.want j = w
    have a1 : ¬ cfg.AckTimeout ≤ max now ta := by omega
    have a2 : ¬ now + cfg.RetransmitTime ≤ max now ta := by omega
    have a3 : ta ≤ max now ta := by omega
    have : selectCase w (ready cfg.AckTimeout (now + cfg.RetransmitTime) (some (ta, err))
        (max now ta)) = SelCase.ackch := by
      cases w <;> simp only [selectCase, ready, a1, a2, a3] <;> simp
    simp only [this, recvAckch]
    refine ⟨trivial, by omega, by omega, fun _ h => by omega⟩
  intro n
  induction n with
  | zero =>
    intro j now hnow h
    exact key j now 0 hnow (by simpa using h)
  | succ m ih =>
    intro j now hnow h
    by_cases h1 : ta < now + cfg.RetransmitTime
    · exact key j now (m + 1) hnow h1
    · have ht : wakeTime now cfg.AckTimeout (now + cfg.RetransmitTime) (some (ta, err)) =
          now + cfg.RetransmitTime := by
        rw [wakeTime_some]; omega
      have hlat := hta j
      have hrec := ih (j + 1) (now + cfg.RetransmitTime + E.lat j) (by omega)
        (by rw [Nat.succ_mul] at h; omega)
      rw [selectLoop_succ, ht]
      generalize E.want j = w at *
      have a1 : ¬ cfg.AckTimeout ≤ now + cfg.RetransmitTime := by omega
      have hc : selectCase w (ready cfg.AckTimeout (now + cfg.RetransmitTime) (some (ta, err))
            (now + cfg.RetransmitTime)) = SelCase.ackch ∧ ta = now + cfg.RetransmitTime ∨
          selectCase w (ready cfg.AckTimeout (now + cfg.RetransmitTime) (some (ta, err))
            (now + cfg.RetransmitTime)) = SelCase.retransmit := by
        by_cases a2 : ta ≤ now + cfg.RetransmitTime
        · have : ta = now + cfg.RetransmitTime := by omega
          cases w <;> simp [selectCase, ready, a1, this]
        · cases w <;> simp [selectCase, ready, a1, a2]
      rcases hc with ⟨hc, he⟩ | hc
      · simp only [hc, recvAckch]
        refine ⟨trivial, by omega, by omega, fun _ _ => he.symm⟩
      · simp only [hc, hw j]
        obtain ⟨r1, r2, r3, r4⟩ := hrec
        refine ⟨r1, r2, r3, fun hz _ => r4 hz ?_⟩
        rw [hz j]; omega

theorem selectLoop_nil (cfg : Config) (E : ConnEnv) (bytes : List Byte)
    (ack : Option (Nat × Option GoError)) :
    ∀ fuel j now, (selectLoop cfg E bytes ack fuel j now).ret = Ret.returned none →
      ∃ t, ack = some (t, none) := by
  intro fuel
  induction fuel with
  | zero => intro j now h; simp [selectLoop] at h
  | succ n ih =>
    intro j now h
    rw [selectLoop_succ] at h
    split at h
    · simp at h
    · split at h
      · simp at h
      · exact ih _ _ h
    · cases ack with
      | none => simp [recvAckch] at h
      | some p =>
        obtain ⟨t, e⟩ := p
        simp [recvAckch] at h
        exact ⟨t, by rw [h]⟩

theorem selectLoop_env (cfg : Config) (E E1 : ConnEnv) (bytes : List Byte)
    (ack : Option (Nat × Option GoError)) (h1 : E.writeErr = E1.writeErr)
    (h2 : E.want = E1.want) (h3 : E.lat = E1.lat) :
    ∀ fuel j now, selectLoop cfg E bytes ack fuel j now = selectLoop cfg E1 bytes ack fuel j now := by
  intro fuel
  induction fuel with
  | zero => intro j now; rfl
  | succ n ih =>
    intro j now
    rw [selectLoop_succ, selectLoop_succ, h1, h2, h3]
    simp only [ih]

/-- With no value ever on `ackch` and all writes succeeding, whatever the
writes take, the loop returns `ErrTimeout` no earlier than the deadline and no
later than a write under way at the deadline ends, and every retransmission
was made a full retransmit period after the previous arming of the timer, at
or before the deadline. -/
theorem selectLoop_timeout (cfg : Config) (E : ConnEnv) (bytes : List Byte)
    (hR : 0 < cfg.RetransmitTime) (hw : ∀ j, E.writeErr j = none) :
    ∀ n j now, cfg.AckTimeout < now + cfg.RetransmitTime + n * cfg.RetransmitTime →
      (selectLoop cfg E bytes none (n + 1) j now).ret = Ret.returned (some GoError.ErrTimeout) ∧
      now + (selectLoop cfg E bytes none (n + 1) j now).writes.length * cfg.RetransmitTime ≤
        max now cfg.AckTimeout ∧
      cfg.AckTimeout ≤ (selectLoop cfg E bytes none (n + 1) j now).time ∧
      ∀ L, (∀ i, E.lat i ≤ L) →
        (selectLoop cfg E bytes none (n + 1) j now).time ≤ max now (cfg.AckTimeout + L) := by
  have key : ∀ j now k, cfg.AckTimeout < now + cfg.RetransmitTime →
      selectLoop cfg E bytes none (k + 1) j now =
        ⟨[], Ret.returned (some GoError.ErrTimeout), max now cfg.AckTimeout⟩ := by
    intro j now k h
    have ht : wakeTime now cfg.AckTimeout (now + cfg.RetransmitTime) none =
        max now cfg.AckTimeout := by
      rw [wakeTime_none]; omega
    rw [selectLoop_succ, ht]
    generalize E.want j = w
    have a1 : cfg.AckTimeout ≤ max now cfg.AckTimeout := by omega
    have a2 : ¬ now + cfg.RetransmitTime ≤ max now cfg.AckTimeout := by omega
    have : selectCase w (ready cfg.AckTimeout (now + cfg.RetransmitTime) none
        (max now cfg.AckTimeout)) = SelCase.maxtimeout := by
      cases w <;> simp only [selectCase, ready, a1, a2] <;> simp
    simp only [this]
  intro n
  induction n with
  | zero =>
    intro j now h
    rw [key j now 0 (by simpa using h)]
    refine ⟨rfl, by simp, by simp, fun L _ => ?_⟩
    simp only
    omega
  | succ m ih =>
    intro j now h
    by_cases h1 : cfg.AckTimeout < now + cfg.RetransmitTime
    · rw [key j now (m + 1) h1]
      refine ⟨rfl, by simp, by simp, fun L _ => ?_⟩
      simp only
      omega
    · have ht : wakeTime now cfg.AckTimeout (now + cfg.RetransmitTime) none =
          now + cfg.RetransmitTime := by
        rw [wakeTime_none]; omega
      have hrec := ih (j + 1) (now + cfg.RetransmitTime + E.lat j)
        (by rw [Nat.succ_mul] at h; omega)
      rw [selectLoop_succ, ht]
      have hc : selectCase (E.want j) (ready cfg.AckTimeout (now + cfg.RetransmitTime) none
            (now + cfg.RetransmitTime)) = SelCase.maxtimeout ∧
            now + cfg.RetransmitTime = cfg.AckTimeout ∨
          selectCase (E.want j) (ready cfg.AckTimeout (now + cfg.RetransmitTime) none
            (now + cfg.RetransmitTime)) = SelCase.retransmit := by
        by_cases a2 : cfg.AckTimeout ≤ now + cfg.RetransmitTime
        · have e : now + cfg.RetransmitTime = cfg.AckTimeout := by omega
          cases E.want j <;> simp [selectCase, ready, e]
        · cases E.want j <;> simp [selectCase, ready, a2]
      rcases hc with ⟨hc, he⟩ | hc
      · simp only [hc]
        refine ⟨trivial, by simp, by omega, fun L _ => by omega⟩
      · simp only [hc, hw j]
        obtain ⟨r1, r2, r3, r4⟩ := hrec
        refine ⟨r1, ?_, r3, fun L hL => ?_⟩
        · simp only [List.length_cons, Nat.succ_mul]
          generalize (selectLoop cfg E bytes none (m + 1) (j + 1)
            (now + cfg.RetransmitTime + E.lat j)).writes.length * cfg.RetransmitTime = x at r2 ⊢
          by_cases hx : x = 0
          · omega
          · omega
        · have := r4 L hL
          have := hL j
          omega

theorem fuel_enough (A R t n : Nat) (hR : 0 < R) (ht : t < A) (hn : A / R ≤ n) :
    t < R + n * R := by
  have h1 := Nat.lt_div_mul_add (a := A) hR
  have h2 : A / R * R ≤ n * R := Nat.mul_le_mul_right R hn
  omega

/-- Once the listener has a value for `ackch`, early enough for a
retransmission under way to be over before the deadline, and the writes
succeed, `sendDataPacket` returns that value, between its arrival and the
deadline, and at its arrival when the writes take no time. -/
theorem sendDataPacket_resolved (cfg : Config) (P : Codec) (fuel : Nat) (E : ConnEnv)
    (d : DataPacket) (ta : Nat) (err : Option GoError)
    (hR : 0 < cfg.RetransmitTime) (hw : ∀ j, E.writeErr j = none)
    (hl : listen P d.BlockNum E.recv = some (ta, err))
    (hta : ∀ j, ta + E.lat j < cfg.AckTimeout)
    (hfuel : cfg.AckTimeout / cfg.RetransmitTime + 1 ≤ fuel) :
    (sendDataPacket cfg P fuel E d).ret = Ret.returned err ∧
      ta ≤ (sendDataPacket cfg P fuel E d).time ∧
      (sendDataPacket cfg P fuel E d).time < cfg.AckTimeout ∧
      ((∀ i, E.lat i = 0) → (sendDataPacket cfg P fuel E d).time = ta) := by
  have hpos : 1 ≤ fuel := le_trans (Nat.le_add_left _ _) hfuel
  obtain ⟨n, rfl⟩ : ∃ n, fuel = n + 1 := ⟨fuel - 1, by omega⟩
  have h0 := hta 0
  have hf := fuel_enough cfg.AckTimeout cfg.RetransmitTime ta n hR (by omega)
    (Nat.le_of_succ_le_succ hfuel)
  unfold sendDataPacket
  rw [hw 0, hl]
  obtain ⟨r1, r2, r3, r4⟩ := selectLoop_acked cfg E (P.Bytes d) ta err hR hw hta n 1 (E.lat 0)
    (by omega) (by omega)
  exact ⟨r1, r2, r3, fun hz => r4 hz (by rw [hz 0]; omega)⟩

/-- With nothing for the listener to report and all writes succeeding,
whatever the writes take, `sendDataPacket` returns `ErrTimeout`, no earlier
than the deadline and no later than a write under way at the deadline ends,
after at most `floor(AckTimeout / RetransmitTime)` retransmissions. -/
theorem sendDataPacket_timeout (cfg : Config) (P : Codec) (fuel : Nat) (E : ConnEnv)
    (d : DataPacket) (hR : 0 < cfg.RetransmitTime) (hw : ∀ j, E.writeErr j = none)
    (hl : listen P d.BlockNum E.recv = none)
    (hfuel : cfg.AckTimeout / cfg.RetransmitTime + 1 ≤ fuel) :
    (sendDataPacket cfg P fuel E d).ret = Ret.returned (some GoError.ErrTimeout) ∧
      (sendDataPacket cfg P fuel E d).writes.length ≤
        1 + cfg.AckTimeout / cfg.RetransmitTime ∧
      cfg.AckTimeout ≤ (sendDataPacket cfg P fuel E d).time ∧
      ∀ L, (∀ i, E.lat i ≤ L) → (sendDataPacket cfg P fuel E d).time ≤ cfg.AckTimeout + L := by
  have hpos : 1 ≤ fuel := le_trans (Nat.le_add_left _ _) hfuel
  obtain ⟨n, rfl⟩ : ∃ n, fuel = n + 1 := ⟨fuel - 1, by omega⟩
  have h1 := Nat.lt_div_mul_add (a := cfg.AckTimeout) hR
  have h2 : cfg.AckTimeout / cfg.RetransmitTime * cfg.RetransmitTime ≤ n * cfg.RetransmitTime :=
    Nat.mul_le_mul_right _ (Nat.le_of_succ_le_succ hfuel)
  obtain ⟨r1, r2, r3, r4⟩ := selectLoop_timeout cfg E (P.Bytes d) hR hw n 1 (E.lat 0) (by omega)
  unfold sendDataPacket
  rw [hw 0, hl]
  refine ⟨r1, ?_, r3, fun L hL => ?_⟩
  · simp only [List.length_cons]
    have hle : (selectLoop cfg E (P.Bytes d) none (n + 1) 1 (E.lat 0)).writes.length ≤
        cfg.AckTimeout / cfg.RetransmitTime := by
      rw [Nat.le_div_iff_mul_le hR]
      generalize (selectLoop cfg E (P.Bytes d) none (n + 1) 1 (E.lat 0)).writes.length
        * cfg.RetransmitTime = x at r2 ⊢
      omega
    omega
  · have := r4 L hL
    have := hL 0
    simp only
    omega

theorem sendDataPacket_writes (cfg : Config) (P : Codec) (fuel : Nat) (E : ConnEnv)
    (d : DataPacket) : ∀ w ∈ (sendDataPacket cfg P fuel E d).writes, w = P.Bytes d := by
  intro w hw
  unfold sendDataPacket at hw
  split at hw
  · simp at hw
  · simp only [List.mem_cons] at hw
    rcases hw with h | h
    · exact h
    · exact selectLoop_writes _ _ _ _ _ _ _ w h

/-- A `nil` from `sendDataPacket` means that the listener read a matching ack. -/
theorem sendDataPacket_nil (cfg : Config) (P : Codec) (fuel : Nat) (E : ConnEnv)
    (d : DataPacket) (h : (sendDataPacket cfg P fuel E d).ret = Ret.returned none) :
    ∃ t, listen P d.BlockNum E.recv = some (t, none) := by
  unfold sendDataPacket at h
  split at h
  · simp at h
  · exact selectLoop_nil _ _ _ _ _ _ _ h

/-- The listener sends `nil` only for a datagram that decodes to an ack with
the awaited block number. -/
theorem listen_nil (P : Codec) (blocknum : Nat) :
    ∀ (recv : List (Nat × Recv)) (t : Nat), listen P blocknum recv = some (t, none) →
      ∃ bs, (t, Recv.dgram bs) ∈ recv ∧
        P.ParsePacket (bs.take 256) = .ok (Packet.ack blocknum) := by
  intro recv
  induction recv with
  | nil => intro t h; simp [listen] at h
  | cons x rest ih =>
    intro t h
    obtain ⟨t0, r⟩ := x
    cases r with
    | fail e => simp [listen] at h
    | dgram bs =>
      rw [listen] at h
      split at h
      · simp at h
      · split at h
        · obtain ⟨bs1, hm, hp⟩ := ih t h
          exact ⟨bs1, List.mem_cons_of_mem _ hm, hp⟩
        · rename_i n hpk hn
          simp at hn h
          refine ⟨bs, ?_, ?_⟩
          · rw [h]; exact List.mem_cons_self _ _
          · rw [hpk, hn]
      · simp at h

theorem readLoop_exit {σ : Type} (cfg : Config) (P : Codec) (fi : Reader σ)
    (conn : Nat → ConnEnv) (sendFuel : Nat)
    (fuel : Nat) (st : σ) (buf : List Byte) (done : Bool) (blknum i : Nat)
    (h : ¬ (buf.length = 512 ∧ done = false)) :
    readLoop cfg P fi conn sendFuel (fuel + 1) st buf done blknum i = ⟨[], Ret.returned none⟩ := by
  rw [readLoop, if_neg h]

theorem readLoop_readErr {σ : Type} (cfg : Config) (P : Codec) (fi : Reader σ)
    (conn : Nat → ConnEnv) (sendFuel : Nat)
    (fuel : Nat) (st st' : σ) (buf bs : List Byte) (blknum i : Nat) (e : GoError)
    (hlen : buf.length = 512) (hread : fi.Read st 512 = (bs, some e, st'))
    (he : e ≠ GoError.EOF) :
    readLoop cfg P fi conn sendFuel (fuel + 1) st buf false blknum i =
      ⟨[], Ret.returned (some e)⟩ := by
  rw [readLoop, if_pos ⟨hlen, rfl⟩, hlen, hread]
  simp [he]

theorem readLoop_send {σ : Type} (cfg : Config) (P : Codec) (fi : Reader σ)
    (conn : Nat → ConnEnv) (sendFuel : Nat)
    (fuel : Nat) (st st' : σ) (buf bs : List Byte) (blknum i : Nat)
    (err : Option GoError)
    (hlen : buf.length = 512) (hread : fi.Read st 512 = (bs, err, st'))
    (herr : err = none ∨ err = some GoError.EOF) (hbs : bs.length ≤ 512) :
    readLoop cfg P fi conn sendFuel (fuel + 1) st buf false blknum i =
      match (sendDataPacket cfg P sendFuel (conn i) ⟨bs, blknum⟩).ret with
      | Ret.returned none =>
        ⟨⟨⟨bs, blknum⟩, (sendDataPacket cfg P sendFuel (conn i) ⟨bs, blknum⟩).writes,
            Ret.returned none⟩ ::
          (readLoop cfg P fi conn sendFuel fuel st' bs (decide (err = some GoError.EOF))
            ((blknum + 1) % 65536) (i + 1)).calls,
          (readLoop cfg P fi conn sendFuel fuel st' bs (decide (err = some GoError.EOF))
            ((blknum + 1) % 65536) (i + 1)).ret⟩
      | other =>
        ⟨[⟨⟨bs, blknum⟩, (sendDataPacket cfg P sendFuel (conn i) ⟨bs, blknum⟩).writes, other⟩],
          other⟩ := by
  rw [readLoop, if_pos ⟨hlen, rfl⟩, hlen, hread]
  have h1 : ¬ (err ≠ none ∧ err ≠ some GoError.EOF) := by
    rcases herr with h | h <;> simp [h]
  have h2 : ¬ 512 < bs.length := by omega
  simp only [if_neg h1, if_neg h2]
  have h3 : (if err = some GoError.EOF then true else false) = decide (err = some GoError.EOF) := by
    by_cases h : err = some GoError.EOF <;> simp [h]
  rw [h3]
  split <;> simp_all

theorem readLoop_panic {σ : Type} (cfg : Config) (P : Codec) (fi : Reader σ)
    (conn : Nat → ConnEnv) (sendFuel : Nat)
    (fuel : Nat) (st st' : σ) (buf bs : List Byte) (blknum i : Nat)
    (err : Option GoError)
    (hlen : buf.length = 512) (hread : fi.Read st 512 = (bs, err, st'))
    (herr : err = none ∨ err = some GoError.EOF) (hbs : 512 < bs.length) :
    readLoop cfg P fi conn sendFuel (fuel + 1) st buf false blknum i = ⟨[], Ret.panicked⟩ := by
  rw [readLoop, if_pos ⟨hlen, rfl⟩, hlen, hread]
  have h1 : ¬ (err ≠ none ∧ err ≠ some GoError.EOF) := by
    rcases herr with h | h <;> simp [h]
  simp only [if_neg h1, if_pos hbs]

/-- The loop makes a call only when it is entered with a full buffer and
`done` unset. -/
theorem readLoop_calls_ne {σ : Type} (cfg : Config) (P : Codec) (fi : Reader σ)
    (conn : Nat → ConnEnv) (sendFuel : Nat)
    (fuel : Nat) (st : σ) (buf : List Byte) (done : Bool) (blknum i : Nat)
    (h : (readLoop cfg P fi conn sendFuel fuel st buf done blknum i).calls ≠ []) :
    buf.length = 512 ∧ done = false := by
  by_contra hc
  cases fuel with
  | zero => simp [readLoop] at h
  | succ n => rw [readLoop_exit _ _ _ _ _ _ _ _ _ _ _ hc] at h; simp at h

/-- Every call the loop makes, in order: the `k`-th one carries the counter
advanced `k` times modulo `65536` and at most 512 bytes, its record is what
`sendDataPacket` did in the `k`-th environment, and a call followed by
another returned `nil` and carried 512 bytes. -/
theorem readLoop_calls {σ : Type} (cfg : Config) (P : Codec) (fi : Reader σ)
    (conn : Nat → ConnEnv) (sendFuel : Nat) : ∀ (fuel : Nat) (st : σ) (buf : List Byte) (done : Bool) (blknum i : Nat),
    blknum < 65536 → ∀ (k : Nat) (r : SendRecord),
    (readLoop cfg P fi conn sendFuel fuel st buf done blknum i).calls[k]? = some r →
      r.pkt.BlockNum = (blknum + k) % 65536 ∧ r.pkt.Data.length ≤ 512 ∧
      r.writes = (sendDataPacket cfg P sendFuel (conn (i + k)) r.pkt).writes ∧
      r.ret = (sendDataPacket cfg P sendFuel (conn (i + k)) r.pkt).ret ∧
      (k + 1 < (readLoop cfg P fi conn sendFuel fuel st buf done blknum i).calls.length →
        r.ret = Ret.returned none ∧ r.pkt.Data.length = 512) := by
  intro fuel
  induction fuel with
  | zero => intro st buf done blknum i _ k r hk; simp [readLoop] at hk
  | succ n ih =>
    intro st buf done blknum i hb k r hk
    by_cases hc : buf.length = 512 ∧ done = false
    · obtain ⟨hlen, hd⟩ := hc
      subst hd
      rcases hread : fi.Read st 512 with ⟨bs, err, st'⟩
      by_cases herr : err = none ∨ err = some GoError.EOF
      · by_cases hbs : bs.length ≤ 512
        · rw [readLoop_send cfg P fi conn sendFuel n st st' buf bs blknum i err hlen hread herr hbs]
            at hk ⊢
          cases hs : (sendDataPacket cfg P sendFuel (conn i) ⟨bs, blknum⟩).ret with
          | blocked =>
            rw [hs] at hk
            cases k with
            | zero =>
              simp at hk; subst hk
              simp [hs, Nat.mod_eq_of_lt hb, hbs]
            | succ k => simp at hk
          | panicked =>
            rw [hs] at hk
            cases k with
            | zero =>
              simp at hk; subst hk
              simp [hs, Nat.mod_eq_of_lt hb, hbs]
            | succ k => simp at hk
          | returned e =>
            cases e with
            | some e =>
              rw [hs] at hk
              cases k with
              | zero =>
                simp at hk; subst hk
                simp [hs, Nat.mod_eq_of_lt hb, hbs]
              | succ k => simp at hk
            | none =>
              rw [hs] at hk
              cases k with
              | zero =>
                simp at hk; subst hk
                simp only [Nat.add_zero, Nat.mod_eq_of_lt hb, hbs, hs, true_and, List.length_cons]
                intro hlt
                have hne : (readLoop cfg P fi conn sendFuel n st' bs
                    (decide (err = some GoError.EOF)) ((blknum + 1) % 65536) (i + 1)).calls ≠ [] := by
                  intro h0; rw [h0] at hlt; simp at hlt
                exact (readLoop_calls_ne cfg P fi conn sendFuel _ _ _ _ _ _ hne).1
              | succ k =>
                simp only [List.getElem?_cons_succ] at hk
                have := ih st' bs (decide (err = some GoError.EOF)) ((blknum + 1) % 65536) (i + 1)
                  (Nat.mod_lt _ (by norm_num)) k r hk
                obtain ⟨h1, h2, h3, h4, h5⟩ := this
                have e1 : i + 1 + k = i + (k + 1) := by omega
                rw [e1] at h3 h4
                refine ⟨by omega, h2, h3, h4, fun hlt => h5 ?_⟩
                simp only [List.length_cons] at hlt
                omega
        · rw [readLoop_panic cfg P fi conn sendFuel n st st' buf bs blknum i err hlen hread herr
            (by omega)] at hk
          simp at hk
      · cases err with
        | none => simp at herr
        | some e =>
          rw [readLoop_readErr cfg P fi conn sendFuel n st st' buf bs blknum i e hlen hread
            (by intro h; subst h; simp at herr)] at hk
          simp at hk
    · rw [readLoop_exit cfg P fi conn sendFuel n st buf done blknum i hc] at hk
      simp at hk

/-- When the loop returns `nil`, every call it made returned `nil`; in any
case the last call returned `nil` or what the loop returns. -/
theorem readLoop_rets {σ : Type} (cfg : Config) (P : Codec) (fi : Reader σ)
    (conn : Nat → ConnEnv) (sendFuel : Nat) : ∀ (fuel : Nat) (st : σ) (buf : List Byte) (done : Bool) (blknum i : Nat),
    ((readLoop cfg P fi conn sendFuel fuel st buf done blknum i).ret = Ret.returned none →
      ∀ r ∈ (readLoop cfg P fi conn sendFuel fuel st buf done blknum i).calls,
        r.ret = Ret.returned none) ∧
    (∀ r, (readLoop cfg P fi conn sendFuel fuel st buf done blknum i).calls.getLast? = some r →
      r.ret = Ret.returned none ∨
        r.ret = (readLoop cfg P fi conn sendFuel fuel st buf done blknum i).ret) := by
  intro fuel
  induction fuel with
  | zero => intro st buf done blknum i; simp [readLoop]
  | succ n ih =>
    intro st buf done blknum i
    by_cases hc : buf.length = 512 ∧ done = false
    · obtain ⟨hlen, hd⟩ := hc
      subst hd
      rcases hread : fi.Read st 512 with ⟨bs, err, st'⟩
      by_cases herr : err = none ∨ err = some GoError.EOF
      · by_cases hbs : bs.length ≤ 512
        · rw [readLoop_send cfg P fi conn sendFuel n st st' buf bs blknum i err hlen hread herr hbs]
          cases hs : (sendDataPacket cfg P sendFuel (conn i) ⟨bs, blknum⟩).ret with
          | blocked => simp
          | panicked => simp
          | returned e =>
            cases e with
            | some e => simp
            | none =>
              have := ih st' bs (decide (err = some GoError.EOF)) ((blknum + 1) % 65536) (i + 1)
              obtain ⟨h1, h2⟩ := this
              simp only
              constructor
              · intro hr r hm
                simp only [List.mem_cons] at hm
                rcases hm with h | h
                · rw [h]
                · exact h1 hr r h
              · intro r hl
                rw [List.getLast?_cons] at hl
                cases hrest : (readLoop cfg P fi conn sendFuel n st' bs
                    (decide (err = some GoError.EOF)) ((blknum + 1) % 65536) (i + 1)).calls.getLast? with
                | none =>
                  rw [hrest] at hl
                  simp at hl
                  left; rw [← hl]
                | some r' =>
                  rw [hrest] at hl
                  simp at hl
                  subst hl
                  exact h2 r' hrest
        · rw [readLoop_panic cfg P fi conn sendFuel n st st' buf bs blknum i err hlen hread herr
            (by omega)]
          simp
      · cases err with
        | none => simp at herr
        | some e =>
          rw [readLoop_readErr cfg P fi conn sendFuel n st st' buf bs blknum i e hlen hread
            (by intro h; subst h; simp at herr)]
          simp
    · rw [readLoop_exit cfg P fi conn sendFuel n st buf done blknum i hc]
      simp

theorem chunks_join (n : Nat) : ∀ c : List Byte, (chunks c n).flatten = c := by
  induction n with
  | zero => intro c; simp [chunks]
  | succ n ih => intro c; simp [chunks, ih]

theorem chunks_length (n : Nat) : ∀ c : List Byte, (chunks c n).length = n + 1 := by
  induction n with
  | zero => intro c; simp [chunks]
  | succ n ih => intro c; simp [chunks, ih]

theorem chunks_sum (n : Nat) : ∀ c : List Byte, ((chunks c n).map List.length).sum = c.length := by
  induction n with
  | zero => intro c; simp [chunks]
  | succ n ih => intro c; simp [chunks, ih]; omega

theorem chunks_getLast (n : Nat) : ∀ c : List Byte, c.length / 512 = n →
    ((chunks c n).map List.length).getLast? = some (c.length % 512) := by
  induction n with
  | zero =>
    intro c h
    have : c.length % 512 = c.length := by omega
    simp [chunks, this]
  | succ n ih =>
    intro c h
    have h1 : (c.drop 512).length / 512 = n := by simp; omega
    have h2 := ih (c.drop 512) h1
    have h3 : (c.drop 512).length % 512 = c.length % 512 := by simp; omega
    rw [chunks, List.map_cons, List.getLast?_cons, h2, h3]
    simp

/-- The transfer of a file-like source with every block acknowledged: the
loop returns `nil` after sending the blocks of the remaining bytes. -/
theorem readLoop_file {σ : Type} (cfg : Config) (P : Codec) (fi : Reader σ)
    (conn : Nat → ConnEnv) (sendFuel : Nat)
    (rem : σ → List Byte) (hF : FileSource fi rem)
    (hR : 0 < cfg.RetransmitTime)
    (hS : cfg.AckTimeout / cfg.RetransmitTime + 1 ≤ sendFuel) :
    ∀ (n : Nat) (st : σ) (buf : List Byte) (blknum i fuel : Nat),
      (rem st).length / 512 = n → buf.length = 512 → blknum < 65536 →
      (∀ k, Acked cfg P (conn (i + k)) ((blknum + k) % 65536)) → n + 2 ≤ fuel →
      (readLoop cfg P fi conn sendFuel fuel st buf false blknum i).ret = Ret.returned none ∧
      (readLoop cfg P fi conn sendFuel fuel st buf false blknum i).calls.map (fun r => r.pkt.Data)
        = chunks (rem st) n := by
  intro n
  induction n with
  | zero =>
    intro st buf blknum i fuel hn hlen hb hack hfuel
    obtain ⟨f, rfl⟩ : ∃ f, fuel = f + 2 := ⟨fuel - 2, by omega⟩
    rcases hread : fi.Read st 512 with ⟨bs, err, st'⟩
    have h := hF st
    rw [hread] at h
    obtain ⟨h1, -, h3, -⟩ := h
    simp only at h1 h3
    have hlt : (rem st).length < 512 := by omega
    have hbs : bs = rem st := by rw [h1]; exact List.take_of_length_le (by omega)
    have hbl : bs.length ≤ 512 := by rw [hbs]; omega
    obtain ⟨hw, t, hl, ht⟩ := hack 0
    simp only [Nat.add_zero, Nat.mod_eq_of_lt hb] at hw hl
    have hsend := (sendDataPacket_resolved cfg P sendFuel (conn i) ⟨bs, blknum⟩ t none hR hw hl ht hS).1
    rw [readLoop_send cfg P fi conn sendFuel (f + 1) st st' buf bs blknum i err hlen hread h3 hbl,
      hsend]
    simp only
    rw [readLoop_exit cfg P fi conn sendFuel f st' bs _ _ _ (by rw [hbs]; omega)]
    simp [chunks, hbs]
  | succ n ih =>
    intro st buf blknum i fuel hn hlen hb hack hfuel
    obtain ⟨f, rfl⟩ : ∃ f, fuel = f + 1 := ⟨fuel - 1, by omega⟩
    rcases hread : fi.Read st 512 with ⟨bs, err, st'⟩
    have h := hF st
    rw [hread] at h
    obtain ⟨h1, h2, h3, h4⟩ := h
    simp only at h1 h2 h3 h4
    have hge : 512 ≤ (rem st).length := by omega
    have hne : rem st ≠ [] := by intro h0; rw [h0] at hge; simp at hge
    have herr : err = none := h2 hne
    have hbl : bs.length = 512 := by rw [h1, List.length_take]; omega
    obtain ⟨hw, t, hl, ht⟩ := hack 0
    simp only [Nat.add_zero, Nat.mod_eq_of_lt hb] at hw hl
    have hsend := (sendDataPacket_resolved cfg P sendFuel (conn i) ⟨bs, blknum⟩ t none hR hw hl ht hS).1
    rw [readLoop_send cfg P fi conn sendFuel f st st' buf bs blknum i err hlen hread h3 (by omega),
      hsend]
    simp only
    have hrec := ih st' bs ((blknum + 1) % 65536) (i + 1) f
      (by rw [h4, List.length_drop]; omega) hbl (Nat.mod_lt _ (by norm_num))
      (fun k => by
        have := hack (k + 1)
        rw [show i + (k + 1) = i + 1 + k by omega,
          show (blknum + (k + 1)) % 65536 = ((blknum + 1) % 65536 + k) % 65536 by omega] at this
        exact this)
      (by omega)
    have hd : decide (err = some GoError.EOF) = false := by simp [herr]
    rw [hd]
    refine ⟨hrec.1, ?_⟩
    rw [List.map_cons, hrec.2, h4, chunks, h1]

theorem fileReader_source : FileSource fileReader (fun st => st) := by
  intro st
  by_cases h : st = []
  · simp [fileReader, h]
  · simp [fileReader, h]

theorem ackBytes_parse (n : Nat) (h : n < 65536) :
    sampleCodec.ParsePacket ((ackBytes n).take 256) = .ok (Packet.ack n) := by
  simp [sampleCodec, ackBytes, Fin.ofNat]
  omega

theorem plainWorld_opens (fi : Reader (List Byte)) (c : List Byte) (conn : Nat → ConnEnv)
    (rrq : ReqPacket) (addr : UDPAddr) : Opens (memServer fi c) (plainWorld conn) rrq addr c :=
  ⟨⟨"0.0.0.0", 0, ""⟩, rfl, rfl, rfl⟩

theorem HandleReadReq_opens {σ : Type} (cfg : Config) (P : Codec) (s : Server σ) (W : World)
    (fuel : Nat) (rrq : ReqPacket) (addr : UDPAddr) (st : σ) (h : Opens s W rrq addr st) :
    HandleReadReq cfg P s W fuel rrq addr =
      readLoop cfg P s.fi W.conn fuel fuel st (List.replicate 512 0) false 1 0 := by
  obtain ⟨la, h1, h2, h3⟩ := h
  unfold HandleReadReq
  simp only [h1, h2, h3]

theorem chunks_lengths (n : Nat) : ∀ c : List Byte, c.length / 512 = n →
    (chunks c n).map List.length = List.replicate n 512 ++ [c.length % 512] := by
  induction n with
  | zero =>
    intro c h
    have : c.length % 512 = c.length := by omega
    simp [chunks, this]
  | succ n ih =>
    intro c h
    have h1 : (c.drop 512).length / 512 = n := by simp; omega
    have h2 := ih (c.drop 512) h1
    have h3 : (c.drop 512).length % 512 = c.length % 512 := by simp; omega
    have h4 : (c.take 512).length = 512 := by rw [List.length_take]; omega
    rw [chunks, List.map_cons, h2, h3, h4, List.replicate_succ, List.cons_append]

/-- The session of a file-like source with every block acknowledged returns
`nil`, and the payloads it sent are the blocks of the file. -/
theorem transfer_file {σ : Type} (cfg : Config) (P : Codec) (s : Server σ) (W : World)
    (rrq : ReqPacket) (addr : UDPAddr) (rem : σ → List Byte) (st : σ) (fuel : Nat)
    (hF : FileSource s.fi rem) (hopen : Opens s W rrq addr st)
    (hR : 0 < cfg.RetransmitTime) (hack : AllAcked cfg P W.conn)
    (hfuel : (rem st).length / 512 + 2 ≤ fuel)
    (hsend : cfg.AckTimeout / cfg.RetransmitTime + 1 ≤ fuel) :
    (HandleReadReq cfg P s W fuel rrq addr).ret = Ret.returned none ∧
      (HandleReadReq cfg P s W fuel rrq addr).calls.map (fun r => r.pkt.Data) = blocks (rem st) := by
  rw [HandleReadReq_opens cfg P s W fuel rrq addr st hopen]
  exact readLoop_file cfg P s.fi W.conn fuel rem hF hR hsend _ st _ 1 0 fuel rfl
    (List.length_replicate _ _) (by norm_num)
    (fun k => by
      have := hack k
      rw [show (k + 1) % 65536 = (1 + k) % 65536 by omega] at this
      simpa using this)
    hfuel

theorem sendDataPacket_head (cfg : Config) (P : Codec) (fuel : Nat) (E : ConnEnv)
    (d : DataPacket) (h : E.writeErr 0 = none) :
    (sendDataPacket cfg P fuel E d).writes.head? = some (P.Bytes d) := by
  unfold sendDataPacket
  rw [h]
  rfl

theorem transfer_length {σ : Type} (cfg : Config) (P : Codec) (s : Server σ) (W : World)
    (rrq : ReqPacket) (addr : UDPAddr) (rem : σ → List Byte) (st : σ) (fuel : Nat)
    (hF : FileSource s.fi rem) (hopen : Opens s W rrq addr st)
    (hR : 0 < cfg.RetransmitTime) (hack : AllAcked cfg P W.conn)
    (hfuel : (rem st).length / 512 + 2 ≤ fuel)
    (hsend : cfg.AckTimeout / cfg.RetransmitTime + 1 ≤ fuel) :
    (HandleReadReq cfg P s W fuel rrq addr).calls.length = (rem st).length / 512 + 1 := by
  have h2 := (transfer_file cfg P s W rrq addr rem st fuel hF hopen hR hack hfuel hsend).2
  have := congrArg List.length h2
  rw [List.length_map, blocks, chunks_length] at this
  exact this

/-- The `k`-th call of a session, counted from `0`, carries the block number
`(k + 1) mod 65536`. -/
theorem transfer_blocknum {σ : Type} (cfg : Config) (P : Codec) (s : Server σ) (W : World)
    (rrq : ReqPacket) (addr : UDPAddr) (fuel k : Nat) (r : SendRecord)
    (h : (HandleReadReq cfg P s W fuel rrq addr).calls[k]? = some r) :
    r.pkt.BlockNum = (k + 1) % 65536 := by
  unfold HandleReadReq at h
  split at h
  · simp at h
  · split at h
    · simp at h
    · split at h
      · simp at h
      · have := (readLoop_calls cfg P s.fi W.conn fuel fuel _ _ false 1 0 (by norm_num) k r h).1
        rw [this, Nat.add_comm]

theorem listen_append (P : Codec) (blocknum : Nat) (rest : List (Nat × Recv)) :
    ∀ pre : List (Nat × Recv), (∀ x ∈ pre, MismatchedAck P blocknum x) →
      listen P blocknum (pre ++ rest) = listen P blocknum rest := by
  intro pre
  induction pre with
  | nil => intro _; rfl
  | cons x pre ih =>
    intro h
    obtain ⟨bs, n, hx, hp, hn⟩ := h x (List.mem_cons_self _ _)
    obtain ⟨t, r⟩ := x
    simp only at hx
    subst hx
    rw [List.cons_append, listen_skip P blocknum t n bs _ hp hn]
    exact ih (fun y hy => h y (List.mem_cons_of_mem _ hy))

theorem listen_mismatched (P : Codec) (blocknum : Nat) (pre : List (Nat × Recv))
    (h : ∀ x ∈ pre, MismatchedAck P blocknum x) : listen P blocknum pre = none := by
  have := listen_append P blocknum [] pre h
  rw [List.append_nil] at this
  rw [this]
  rfl

theorem HandleReadReq_fails {σ : Type} (cfg : Config) (P : Codec) (s : Server σ) (W : World)
    (fuel : Nat) (rrq : ReqPacket) (addr : UDPAddr) (h : ¬ ∃ st, Opens s W rrq addr st) :
    (HandleReadReq cfg P s W fuel rrq addr).calls = [] := by
  cases h1 : W.ResolveUDPAddr ":0" with
  | error e => simp only [HandleReadReq, h1]
  | ok la =>
    cases h2 : W.dialErr la addr with
    | some e => simp only [HandleReadReq, h1, h2]
    | none =>
      cases h3 : s.ReadFunc (s.servdir ++ "/" ++ rrq.Filename) with
      | error e => simp only [HandleReadReq, h1, h2, h3]
      | ok st => exact absurd ⟨st, la, h1, h2, h3⟩ h

/-- Every call of a session, in order: the `k`-th one, counted from `0`,
carries the block number `(k + 1) mod 65536` and at most 512 bytes, its record
is what `sendDataPacket` did in the `k`-th environment, and a call followed
by another returned `nil` and carried 512 bytes. -/
theorem transfer_calls {σ : Type} (cfg : Config) (P : Codec) (s : Server σ) (W : World)
    (rrq : ReqPacket) (addr : UDPAddr) (fuel k : Nat) (r : SendRecord)
    (h : (HandleReadReq cfg P s W fuel rrq addr).calls[k]? = some r) :
    r.pkt.BlockNum = (k + 1) % 65536 ∧ r.pkt.Data.length ≤ 512 ∧
      r.writes = (sendDataPacket cfg P fuel (W.conn k) r.pkt).writes ∧
      r.ret = (sendDataPacket cfg P fuel (W.conn k) r.pkt).ret ∧
      (k + 1 < (HandleReadReq cfg P s W fuel rrq addr).calls.length →
        r.ret = Ret.returned none ∧ r.pkt.Data.length = 512) := by
  by_cases hop : ∃ st, Opens s W rrq addr st
  · obtain ⟨st, hop⟩ := hop
    rw [HandleReadReq_opens cfg P s W fuel rrq addr st hop] at h ⊢
    have := readLoop_calls cfg P s.fi W.conn fuel fuel _ _ false 1 0 (by norm_num) k r h
    simp only [Nat.zero_add] at this
    rw [Nat.add_comm 1 k] at this
    exact this
  · rw [HandleReadReq_fails cfg P s W fuel rrq addr hop] at h
    simp at h

/-- When a session returns `nil`, every call it made returned `nil`; in any
case its last call returned `nil` or what the session returns. -/
theorem transfer_rets {σ : Type} (cfg : Config) (P : Codec) (s : Server σ) (W : World)
    (rrq : ReqPacket) (addr : UDPAddr) (fuel : Nat) :
    ((HandleReadReq cfg P s W fuel rrq addr).ret = Ret.returned none →
      ∀ r ∈ (HandleReadReq cfg P s W fuel rrq addr).calls, r.ret = Ret.returned none) ∧
    (∀ r, (HandleReadReq cfg P s W fuel rrq addr).calls.getLast? = some r →
      r.ret = Ret.returned none ∨ r.ret = (HandleReadReq cfg P s W fuel rrq addr).ret) := by
  by_cases hop : ∃ st, Opens s W rrq addr st
  · obtain ⟨st, hop⟩ := hop
    rw [HandleReadReq_opens cfg P s W fuel rrq addr st hop]
    exact readLoop_rets cfg P s.fi W.conn fuel fuel _ _ false 1 0
  · rw [HandleReadReq_fails cfg P s W fuel rrq addr hop]
    simp

theorem shortReader_ok (m : Nat) : ReaderOK (shortReader m) := by
  intro st p
  by_cases h : st = []
  · simp [shortReader, h]
  · simp only [shortReader, if_neg h, List.length_take]
    omega

theorem readLoop_short {σ : Type} (cfg : Config) (P : Codec) (fi : Reader σ)
    (conn : Nat → ConnEnv) (sendFuel n : Nat) (st st1 : σ) (buf bs : List Byte) (blknum i : Nat)
    (err : Option GoError)
    (hlen : buf.length = 512) (hread : fi.Read st 512 = (bs, err, st1))
    (herr : err = none ∨ err = some GoError.EOF) (hshort : bs.length < 512)
    (hsend : (sendDataPacket cfg P sendFuel (conn i) ⟨bs, blknum⟩).ret = Ret.returned none) :
    readLoop cfg P fi conn sendFuel (n + 2) st buf false blknum i =
      ⟨[⟨⟨bs, blknum⟩, (sendDataPacket cfg P sendFuel (conn i) ⟨bs, blknum⟩).writes,
        Ret.returned none⟩], Ret.returned none⟩ := by
  rw [readLoop_send cfg P fi conn sendFuel (n + 1) st st1 buf bs blknum i err hlen hread herr
    (by omega), hsend]
  simp only
  rw [readLoop_exit cfg P fi conn sendFuel n st1 bs _ _ _ (by omega)]

theorem ackPeer_acked (cfg : Config) (t l : Nat) (ht : t + l < cfg.AckTimeout) :
    AllAcked cfg sampleCodec (ackPeer t l) := by
  intro i
  refine ⟨fun _ => rfl, t, ?_, fun _ => ht⟩
  have h := ackBytes_parse ((i + 1) % 65536) (Nat.mod_lt _ (by norm_num))
  simp [ackPeer, listen, h]

/-- With no value ever on `ackch`, all writes succeeding and taking at most
`L`, the loop retransmits at least `c` times whenever `c` periods of
`RetransmitTime + L` fit before the deadline. -/
theorem selectLoop_atleast (cfg : Config) (E : ConnEnv) (bytes : List Byte) (L : Nat)
    (hw : ∀ j, E.writeErr j = none) (hL : ∀ i, E.lat i ≤ L) :
    ∀ c n j now, c ≤ n → now + c * (cfg.RetransmitTime + L) < cfg.AckTimeout + L →
      c ≤ (selectLoop cfg E bytes none (n + 1) j now).writes.length := by
  intro c
  induction c with
  | zero => intro n j now _ _; exact Nat.zero_le _
  | succ c ih =>
    intro n j now hn h
    obtain ⟨m, rfl⟩ : ∃ m, n = m + 1 := ⟨n - 1, by omega⟩
    rw [Nat.succ_mul] at h
    have h1 : now + cfg.RetransmitTime < cfg.AckTimeout := by
      have := Nat.zero_le (c * (cfg.RetransmitTime + L))
      omega
    have ht : wakeTime now cfg.AckTimeout (now + cfg.RetransmitTime) none =
        now + cfg.RetransmitTime := by
      rw [wakeTime_none]; omega
    rw [selectLoop_succ, ht]
    have a1 : ¬ cfg.AckTimeout ≤ now + cfg.RetransmitTime := by omega
    have : selectCase (E.want j) (ready cfg.AckTimeout (now + cfg.RetransmitTime) none
        (now + cfg.RetransmitTime)) = SelCase.retransmit := by
      cases E.want j <;> simp [selectCase, ready, a1]
    simp only [this, hw j, List.length_cons]
    have := hL j
    have := ih m (j + 1) (now + cfg.RetransmitTime + E.lat j) (by omega) (by omega)
    omega

/-- With nothing for the listener to report, all writes succeeding and
taking at most `L`, `sendDataPacket` retransmits at least `c` times whenever
`c` periods of `RetransmitTime + L` end before the deadline. -/
theorem sendDataPacket_atleast (cfg : Config) (P : Codec) (fuel : Nat) (E : ConnEnv)
    (d : DataPacket) (L c : Nat) (hw : ∀ j, E.writeErr j = none) (hL : ∀ i, E.lat i ≤ L)
    (hl : listen P d.BlockNum E.recv = none) (hfuel : c + 1 ≤ fuel)
    (hc : c * (cfg.RetransmitTime + L) < cfg.AckTimeout) :
    c + 1 ≤ (sendDataPacket cfg P fuel E d).writes.length := by
  obtain ⟨n, rfl⟩ : ∃ n, fuel = n + 1 := ⟨fuel - 1, by omega⟩
  unfold sendDataPacket
  rw [hw 0, hl]
  simp only [List.length_cons]
  have := hL 0
  have := selectLoop_atleast cfg E (P.Bytes d) L hw hL c n 1 (E.lat 0) (by omega) (by omega)
  omega

theorem readerAfter_shift {σ : Type} (fi : Reader σ) (st : σ) :
    ∀ k, readerAfter fi st (k + 1) = readerAfter fi (fi.Read st 512).2.2 k := by
  intro k
  induction k with
  | zero => rfl
  | succ k ih =>
    rw [readerAfter, ih]
    rfl

/-- While the reads fill the buffer without error and the calls of
`sendDataPacket` return `nil`, the loop goes on: after `k` such rounds it has
made `k` calls, all returning `nil`, and continues from the state the reader
is in then, with the counter advanced `k` times. -/
theorem readLoop_progress {σ : Type} (cfg : Config) (P : Codec) (fi : Reader σ)
    (conn : Nat → ConnEnv) (sendFuel : Nat) :
    ∀ (k fuel : Nat) (st : σ) (buf : List Byte) (blknum i : Nat),
      buf.length = 512 → blknum < 65536 →
      (∀ m, m < k →
        (fi.Read (readerAfter fi st m) 512).2.1 = none ∧
        (fi.Read (readerAfter fi st m) 512).1.length = 512 ∧
        (sendDataPacket cfg P sendFuel (conn (i + m))
          ⟨(fi.Read (readerAfter fi st m) 512).1, (blknum + m) % 65536⟩).ret =
            Ret.returned none) →
      ∃ pre buf1, pre.length = k ∧ buf1.length = 512 ∧
        (∀ r ∈ pre, r.ret = Ret.returned none) ∧
        readLoop cfg P fi conn sendFuel (fuel + k) st buf false blknum i =
          ⟨pre ++ (readLoop cfg P fi conn sendFuel fuel (readerAfter fi st k) buf1 false
              ((blknum + k) % 65536) (i + k)).calls,
            (readLoop cfg P fi conn sendFuel fuel (readerAfter fi st k) buf1 false
              ((blknum + k) % 65536) (i + k)).ret⟩ := by
  intro k
  induction k with
  | zero =>
    intro fuel st buf blknum i hlen hb _
    exact ⟨[], buf, rfl, hlen, by simp, by simp [readerAfter, Nat.mod_eq_of_lt hb]⟩
  | succ k ih =>
    intro fuel st buf blknum i hlen hb h
    obtain ⟨h1, h2, h3⟩ := h 0 (Nat.succ_pos _)
    simp only [readerAfter, Nat.add_zero, Nat.mod_eq_of_lt hb] at h1 h2 h3
    rcases hread : fi.Read st 512 with ⟨bs, err, st1⟩
    rw [hread] at h1 h2 h3
    simp only at h1 h2 h3
    subst h1
    obtain ⟨pre, buf1, p1, p2, p3, p4⟩ := ih fuel st1 bs ((blknum + 1) % 65536) (i + 1) h2
      (Nat.mod_lt _ (by norm_num))
      (fun m hm => by
        have := h (m + 1) (by omega)
        rw [readerAfter_shift, hread] at this
        rw [show i + 1 + m = i + (m + 1) by omega,
          show ((blknum + 1) % 65536 + m) % 65536 = (blknum + (m + 1)) % 65536 by omega]
        exact this)
    refine ⟨⟨⟨bs, blknum⟩, (sendDataPacket cfg P sendFuel (conn i) ⟨bs, blknum⟩).writes,
      Ret.returned none⟩ :: pre, buf1, by simp [p1], p2, ?_, ?_⟩
    · intro r hr
      simp only [List.mem_cons] at hr
      rcases hr with hr | hr
      · rw [hr]
      · exact p3 r hr
    · rw [show fuel + (k + 1) = fuel + k + 1 by omega,
        readLoop_send cfg P fi conn sendFuel (fuel + k) st st1 buf bs blknum i none hlen hread
          (Or.inl rfl) (by omega), h3]
      simp only [decide_False, reduceCtorEq]
      rw [p4, readerAfter_shift, hread]
      simp only [List.cons_append]
      rw [show i + 1 + k = i + (k + 1) by omega,
        show ((blknum + 1) % 65536 + k) % 65536 = (blknum + (k + 1)) % 65536 by omega]

/-- A session that opens its file and whose first `k` rounds go through has
made `k` calls, all returning `nil`, and continues with the loop entered in
the state the reader is in then. -/
theorem transfer_progress {σ : Type} (cfg : Config) (P : Codec) (s : Server σ) (W : World)
    (rrq : ReqPacket) (addr : UDPAddr) (st : σ) (k fuel : Nat)
    (hopen : Opens s W rrq addr st) (hprog : Progress cfg P s.fi W.conn fuel st k)
    (hfuel : k ≤ fuel) :
    ∃ pre buf1, pre.length = k ∧ buf1.length = 512 ∧
      (∀ r ∈ pre, r.ret = Ret.returned none) ∧
      HandleReadReq cfg P s W fuel rrq addr =
        ⟨pre ++ (readLoop cfg P s.fi W.conn fuel (fuel - k) (readerAfter s.fi st k) buf1 false
            ((k + 1) % 65536) k).calls,
          (readLoop cfg P s.fi W.conn fuel (fuel - k) (readerAfter s.fi st k) buf1 false
            ((k + 1) % 65536) k).ret⟩ := by
  obtain ⟨pre, buf1, p1, p2, p3, p4⟩ := readLoop_progress cfg P s.fi W.conn fuel k (fuel - k) st
    (List.replicate 512 0) 1 0 (List.length_replicate _ _) (by norm_num)
    (fun m hm => by
      have := hprog m hm
      rw [Nat.zero_add, Nat.add_comm 1 m]
      exact this)
  refine ⟨pre, buf1, p1, p2, p3, ?_⟩
  rw [HandleReadReq_opens cfg P s W fuel rrq addr st hopen]
  rw [show fuel - k + k = fuel by omega, Nat.zero_add, Nat.add_comm 1 k] at p4
  exact p4

theorem HandleClient_read {σ : Type} (cfg : Config) (P : Codec) (s : Server σ) (W : World)
    (fuel : Nat) (addr : UDPAddr) (req : Packet) (rrq : ReqPacket) (ca : UDPAddr) (tr : Transfer)
    (h : HandleClient cfg P s W fuel addr req = Handled.read rrq ca tr) :
    req = Packet.req rrq ∧ rrq.Opcode = RRQ ∧ W.ResolveUDPAddr addr.String = .ok ca ∧
      tr = HandleReadReq cfg P s W fuel rrq ca := by
  cases req with
  | req r =>
    cases hres : W.ResolveUDPAddr addr.String with
    | error e => simp [HandleClient, hres] at h
    | ok a =>
      by_cases h1 : r.Opcode = RRQ
      · simp only [HandleClient, hres, h1, if_true, Handled.read.injEq] at h
        obtain ⟨rfl, rfl, rfl⟩ := h
        exact ⟨rfl, h1, rfl, rfl⟩
      · simp only [HandleClient, hres, if_neg h1] at h
        split at h <;> simp at h
  | data d => simp [HandleClient] at h
  | ack n => simp [HandleClient] at h
  | error c m => simp [HandleClient] at h

/-- Every call of `HandleReadReq` that the receive loop starts comes from a
received datagram that decodes to the request handed over, a read request,
and the address handed over is the re-resolved address of the sender of that
very datagram. -/
theorem serveLoop_read {σ : Type} (cfg : Config) (P : Codec) (s : Server σ)
    (session : Nat → World) (fuel : Nat) (rrq : ReqPacket) (ca : UDPAddr) (tr : Transfer) :
    ∀ (recv : List (Except GoError (List Byte × UDPAddr))) (k : Nat),
      Handled.read rrq ca tr ∈ (serveLoop cfg P s session fuel recv k).spawned →
      ∃ i dgram ua, recv[i]? = some (.ok (dgram, ua)) ∧
        P.ParsePacket (dgram.take TftpMaxPacketSize) = .ok (Packet.req rrq) ∧
        rrq.Opcode = RRQ ∧ (session (k + i)).ResolveUDPAddr ua.String = .ok ca ∧
        tr = HandleReadReq cfg P s (session (k + i)) fuel rrq ca := by
  intro recv
  induction recv with
  | nil => intro k h; simp [serveLoop] at h
  | cons x rest ih =>
    intro k h
    cases x with
    | error e => simp [serveLoop] at h
    | ok p =>
      obtain ⟨dgram, ua⟩ := p
      rw [serveLoop] at h
      have shift : Handled.read rrq ca tr ∈ (serveLoop cfg P s session fuel rest (k + 1)).spawned →
          ∃ i dg a, (Except.ok (dgram, ua) :: rest)[i]? = some (.ok (dg, a)) ∧
            P.ParsePacket (dg.take TftpMaxPacketSize) = .ok (Packet.req rrq) ∧
            rrq.Opcode = RRQ ∧ (session (k + i)).ResolveUDPAddr a.String = .ok ca ∧
            tr = HandleReadReq cfg P s (session (k + i)) fuel rrq ca := by
        intro h0
        obtain ⟨i, dg, a, hm, h1, h2, h3, h4⟩ := ih (k + 1) h0
        refine ⟨i + 1, dg, a, by simpa using hm, h1, h2, ?_, ?_⟩
        · rw [show k + (i + 1) = k + 1 + i by omega]; exact h3
        · rw [show k + (i + 1) = k + 1 + i by omega]; exact h4
      cases hp : P.ParsePacket (dgram.take TftpMaxPacketSize) with
      | error e =>
        rw [hp] at h
        exact shift h
      | ok packet =>
        rw [hp] at h
        simp only [List.mem_cons] at h
        rcases h with h | h
        · obtain ⟨h1, h2, h3, h4⟩ := HandleClient_read cfg P s (session k) fuel ua packet rrq ca tr
            h.symm
          exact ⟨0, dgram, ua, by simp, by rw [hp, h1], h2, h3, h4⟩
        · exact shift h

/-- In the fully acknowledged transfer of a file of `65535 * 512` bytes the
65536-th block sent carries the block number 0. -/
theorem wrap_at_65536 (c : List Byte) (hc : c.length = 33553920) :
    (HandleReadReq defaultConfig sampleCodec (memServer fileReader c)
        (plainWorld (ackPeer 1000000 0)) 65537 ⟨RRQ, "f", "octet"⟩ ⟨"10.0.0.2", 4242, ""⟩).ret =
      Ret.returned none ∧
    ∃ r, (HandleReadReq defaultConfig sampleCodec (memServer fileReader c)
        (plainWorld (ackPeer 1000000 0)) 65537 ⟨RRQ, "f", "octet"⟩ ⟨"10.0.0.2", 4242, ""⟩).calls[65535]? =
      some r ∧ r.pkt.BlockNum = 0 ∧ r.pkt.BlockNum ≠ 65536 := by
  have hA : AllAcked defaultConfig sampleCodec (plainWorld (ackPeer 1000000 0)).conn :=
    ackPeer_acked defaultConfig 1000000 0 (by decide)
  have hf : ((fun st : List Byte => st) c).length / 512 + 2 ≤ 65537 := by
    simp only [hc]
    decide
  have hlen := transfer_length defaultConfig sampleCodec
    (memServer fileReader c) (plainWorld (ackPeer 1000000 0))
    ⟨RRQ, "f", "octet"⟩ ⟨"10.0.0.2", 4242, ""⟩ (fun st => st) c 65537
    fileReader_source (plainWorld_opens _ _ _ _ _) (by decide) hA hf (by decide)
  have hret := (transfer_file defaultConfig sampleCodec
    (memServer fileReader c) (plainWorld (ackPeer 1000000 0))
    ⟨RRQ, "f", "octet"⟩ ⟨"10.0.0.2", 4242, ""⟩ (fun st => st) c 65537
    fileReader_source (plainWorld_opens _ _ _ _ _) (by decide) hA hf (by decide)).1
  have hl : 65535 < (HandleReadReq defaultConfig sampleCodec (memServer fileReader c)
      (plainWorld (ackPeer 1000000 0)) 65537 ⟨RRQ, "f", "octet"⟩ ⟨"10.0.0.2", 4242, ""⟩).calls.length := by
    rw [hlen]
    simp only [hc]
    decide
  have hb := transfer_blocknum defaultConfig sampleCodec _ _ _ _ _ 65535 _
    (List.getElem?_eq_getElem hl)
  exact ⟨hret, _, List.getElem?_eq_getElem hl, hb, by rw [hb]; decide⟩

/-- In a session that has opened its file and sent `k` acknowledged blocks, a
read that yields fewer than 512 bytes, with `io.EOF` or without, ends the
session once its block is acknowledged: `HandleReadReq` returns `nil` with
that block as its last call. -/
theorem transfer_short {σ : Type} (cfg : Config) (P : Codec) (s : Server σ) (W : World)
    (rrq : ReqPacket) (addr : UDPAddr) (st st1 : σ) (k fuel : Nat) (bs : List Byte)
    (err : Option GoError)
    (hopen : Opens s W rrq addr st) (hprog : Progress cfg P s.fi W.conn fuel st k)
    (hfuel : k + 2 ≤ fuel) (hread : s.fi.Read (readerAfter s.fi st k) 512 = (bs, err, st1))
    (herr : err = none ∨ err = some GoError.EOF) (hshort : bs.length < 512)
    (hsend : (sendDataPacket cfg P fuel (W.conn k) ⟨bs, (k + 1) % 65536⟩).ret =
      Ret.returned none) :
    (HandleReadReq cfg P s W fuel rrq addr).ret = Ret.returned none ∧
      (HandleReadReq cfg P s W fuel rrq addr).calls.length = k + 1 ∧
      (HandleReadReq cfg P s W fuel rrq addr).calls[k]? =
        some ⟨⟨bs, (k + 1) % 65536⟩,
          (sendDataPacket cfg P fuel (W.conn k) ⟨bs, (k + 1) % 65536⟩).writes,
          Ret.returned none⟩ := by
  obtain ⟨pre, buf1, p1, p2, p3, p4⟩ :=
    transfer_progress cfg P s W rrq addr st k fuel hopen hprog (by omega)
  obtain ⟨m, hm⟩ : ∃ m, fuel - k = m + 2 := ⟨fuel - k - 2, by omega⟩
  rw [hm, readLoop_short cfg P s.fi W.conn fuel m _ st1 buf1 bs _ k err p2 hread herr hshort
    hsend] at p4
  rw [p4]
  simp only
  refine ⟨trivial, by simp [p1], ?_⟩
  rw [List.getElem?_append_right (by omega)]
  simp [p1]

/-- With no value ever on `ackch`, all writes succeeding and taking at least
`l`, every retransmission comes a retransmit period and a write after the
previous arming of the timer, at or before the deadline. -/
theorem selectLoop_atmost (cfg : Config) (E : ConnEnv) (bytes : List Byte) (l : Nat)
    (hR : 0 < cfg.RetransmitTime) (hl : ∀ i, l ≤ E.lat i) :
    ∀ n j now,
      now + (selectLoop cfg E bytes none n j now).writes.length * (cfg.RetransmitTime + l) ≤
        max now (cfg.AckTimeout + l) := by
  intro n
  induction n with
  | zero => intro j now; simp [selectLoop]
  | succ m ih =>
    intro j now
    rw [selectLoop_succ]
    split
    · simp
    · rename_i hsel
      split
      · simp
      · have hrdy : now + cfg.RetransmitTime ≤
            wakeTime now cfg.AckTimeout (now + cfg.RetransmitTime) none := by
          by_contra hcon
          have a2 : ¬ now + cfg.RetransmitTime ≤
              wakeTime now cfg.AckTimeout (now + cfg.RetransmitTime) none := hcon
          revert hsel
          cases E.want j <;> simp only [selectCase, ready, a2] <;> simp <;>
            split <;> simp
        have hwake : wakeTime now cfg.AckTimeout (now + cfg.RetransmitTime) none =
            now + cfg.RetransmitTime ∧ now + cfg.RetransmitTime ≤ cfg.AckTimeout := by
          rw [wakeTime_none] at hrdy ⊢
          omega
        rw [hwake.1]
        have := ih (j + 1) (now + cfg.RetransmitTime + E.lat j)
        have := hl j
        simp only [List.length_cons, Nat.succ_mul]
        generalize (selectLoop cfg E bytes none m (j + 1)
          (now + cfg.RetransmitTime + E.lat j)).writes.length * (cfg.RetransmitTime + l) = x at *
        by_cases hx : x = 0
        · omega
        · omega
    · simp [recvAckch]

/-- With nothing for the listener to report and all writes taking at least
`l`, `sendDataPacket` makes at most `floor(AckTimeout / (RetransmitTime + l))`
retransmissions. -/
theorem sendDataPacket_atmost (cfg : Config) (P : Codec) (fuel : Nat) (E : ConnEnv)
    (d : DataPacket) (l : Nat) (hR : 0 < cfg.RetransmitTime) (hl : ∀ i, l ≤ E.lat i)
    (hlis : listen P d.BlockNum E.recv = none) :
    (sendDataPacket cfg P fuel E d).writes.length - 1 ≤
      cfg.AckTimeout / (cfg.RetransmitTime + l) := by
  unfold sendDataPacket
  split
  · simp
  · rw [hlis]
    simp only [List.length_cons, Nat.add_sub_cancel]
    rw [Nat.le_div_iff_mul_le (by omega)]
    have := selectLoop_atmost cfg E (P.Bytes d) l hR hl fuel 1 (E.lat 0)
    have := hl 0
    generalize (selectLoop cfg E (P.Bytes d) none fuel 1 (E.lat 0)).writes.length
      * (cfg.RetransmitTime + l) = x at *
    omega

/-! ## The claims -/

/-- C1: for a file of size `S` served by a file-like byte source, with every
block acknowledged, `HandleReadReq` returns `nil` after sending data blocks
whose payload lengths are `S / 512` times 512 followed by `S % 512`: they sum
to `S`, and the final block has length `S % 512` (zero when `S` is a multiple
of 512, `S = 0` included). -/
theorem C1_block_lengths {σ : Type} (cfg : Config) (P : Codec) (s : Server σ) (W : World)
    (rrq : ReqPacket) (addr : UDPAddr) (rem : σ → List Byte) (st : σ) (fuel : Nat)
    (hF : FileSource s.fi rem) (hopen : Opens s W rrq addr st)
    (hR : 0 < cfg.RetransmitTime) (hack : AllAcked cfg P W.conn)
    (hfuel : (rem st).length / 512 + 2 ≤ fuel)
    (hsend : cfg.AckTimeout / cfg.RetransmitTime + 1 ≤ fuel) :
    (HandleReadReq cfg P s W fuel rrq addr).ret = Ret.returned none ∧
      (HandleReadReq cfg P s W fuel rrq addr).calls.map (fun r => r.pkt.Data.length) =
        List.replicate ((rem st).length / 512) 512 ++ [(rem st).length % 512] ∧
      ((HandleReadReq cfg P s W fuel rrq addr).calls.map (fun r => r.pkt.Data.length)).sum =
        (rem st).length ∧
      ((HandleReadReq cfg P s W fuel rrq addr).calls.map (fun r => r.pkt.Data.length)).getLast? =
        some ((rem st).length % 512) := by
  obtain ⟨h1, h2⟩ := transfer_file cfg P s W rrq addr rem st fuel hF hopen hR hack hfuel hsend
  have hmap : (HandleReadReq cfg P s W fuel rrq addr).calls.map (fun r => r.pkt.Data.length) =
      (blocks (rem st)).map List.length := by
    rw [← h2, List.map_map]; rfl
  refine ⟨h1, ?_, ?_, ?_⟩
  · rw [hmap]; exact chunks_lengths _ _ rfl
  · rw [hmap]; exact chunks_sum _ _
  · rw [hmap]; exact chunks_getLast _ _ rfl

/-- C1, run on files of 1000, 512 and 0 bytes: the lengths sent are
`[512, 488]`, `[512, 0]` and `[0]`. -/
theorem C1_block_lengths_witness :
    (HandleReadReq defaultConfig sampleCodec (memServer fileReader (List.replicate 1000 7))
        (plainWorld (ackPeer 1000000 0)) 10 ⟨RRQ, "f", "octet"⟩ ⟨"10.0.0.2", 4242, ""⟩).calls.map
        (fun r => r.pkt.Data.length) = [512, 488] ∧
    (HandleReadReq defaultConfig sampleCodec (memServer fileReader (List.replicate 512 7))
        (plainWorld (ackPeer 1000000 0)) 10 ⟨RRQ, "f", "octet"⟩ ⟨"10.0.0.2", 4242, ""⟩).calls.map
        (fun r => r.pkt.Data.length) = [512, 0] ∧
    (HandleReadReq defaultConfig sampleCodec (memServer fileReader [])
        (plainWorld (ackPeer 1000000 0)) 10 ⟨RRQ, "f", "octet"⟩ ⟨"10.0.0.2", 4242, ""⟩).calls.map
        (fun r => r.pkt.Data.length) = [0] := by
  have hA : AllAcked defaultConfig sampleCodec (plainWorld (ackPeer 1000000 0)).conn :=
    ackPeer_acked defaultConfig 1000000 0 (by decide)
  refine ⟨?_, ?_, ?_⟩
  · have h := (C1_block_lengths defaultConfig sampleCodec
      (memServer fileReader (List.replicate 1000 7)) (plainWorld (ackPeer 1000000 0))
      ⟨RRQ, "f", "octet"⟩ ⟨"10.0.0.2", 4242, ""⟩ (fun st => st) (List.replicate 1000 7) 10
      fileReader_source (plainWorld_opens _ _ _ _ _) (by decide) hA
      (by rw [List.length_replicate]; decide) (by decide)).2.1
    rw [List.length_replicate] at h
    exact h
  · have h := (C1_block_lengths defaultConfig sampleCodec
      (memServer fileReader (List.replicate 512 7)) (plainWorld (ackPeer 1000000 0))
      ⟨RRQ, "f", "octet"⟩ ⟨"10.0.0.2", 4242, ""⟩ (fun st => st) (List.replicate 512 7) 10
      fileReader_source (plainWorld_opens _ _ _ _ _) (by decide) hA
      (by rw [List.length_replicate]; decide) (by decide)).2.1
    rw [List.length_replicate] at h
    exact h
  · exact (C1_block_lengths defaultConfig sampleCodec
      (memServer fileReader []) (plainWorld (ackPeer 1000000 0))
      ⟨RRQ, "f", "octet"⟩ ⟨"10.0.0.2", 4242, ""⟩ (fun st => st) [] 10
      fileReader_source (plainWorld_opens _ _ _ _ _) (by decide) hA
      (by decide) (by decide)).2.1

/-- C2, amended: in every session the `k`-th data block `HandleReadReq` sends
carries the block number `k mod 65536`, the counter being a `uint16` that
wraps; so while at most 65535 blocks are sent their numbers are exactly
`1, 2, ..., N` in that order, with no gaps and no repeats. In the fully
acknowledged transfer of a file of size `S` from a file-like byte source,
`S / 512 + 1` blocks are sent. -/
theorem C2_block_numbers {σ : Type} (cfg : Config) (P : Codec) (s : Server σ) (W : World)
    (rrq : ReqPacket) (addr : UDPAddr) (fuel : Nat) :
    (∀ k r, (HandleReadReq cfg P s W fuel rrq addr).calls[k]? = some r →
      r.pkt.BlockNum = (k + 1) % 65536) ∧
    ((HandleReadReq cfg P s W fuel rrq addr).calls.length ≤ 65535 →
      (HandleReadReq cfg P s W fuel rrq addr).calls.map (fun r => r.pkt.BlockNum) =
        List.range' 1 (HandleReadReq cfg P s W fuel rrq addr).calls.length) ∧
    ∀ (rem : σ → List Byte) (st : σ), FileSource s.fi rem → Opens s W rrq addr st →
      0 < cfg.RetransmitTime → AllAcked cfg P W.conn → (rem st).length / 512 + 2 ≤ fuel →
      cfg.AckTimeout / cfg.RetransmitTime + 1 ≤ fuel →
      (HandleReadReq cfg P s W fuel rrq addr).ret = Ret.returned none ∧
        (HandleReadReq cfg P s W fuel rrq addr).calls.length = (rem st).length / 512 + 1 := by
  refine ⟨fun k r h => transfer_blocknum cfg P s W rrq addr fuel k r h, fun hN => ?_,
    fun rem st hF hopen hR hack hfuel hsend =>
      ⟨(transfer_file cfg P s W rrq addr rem st fuel hF hopen hR hack hfuel hsend).1,
        transfer_length cfg P s W rrq addr rem st fuel hF hopen hR hack hfuel hsend⟩⟩
  apply List.ext_getElem
  · rw [List.length_map, List.length_range']
  · intro k h1 h2
    rw [List.length_map] at h1
    rw [List.getElem_map, List.getElem_range']
    have hk := transfer_blocknum cfg P s W rrq addr fuel k _ (List.getElem?_eq_getElem h1)
    rw [hk]
    omega

set_option maxRecDepth 100000 in
/-- C2, amended, run on a file of 1000 bytes: two blocks, numbered 1 and 2. -/
theorem C2_block_numbers_witness :
    (HandleReadReq defaultConfig sampleCodec (memServer fileReader (List.replicate 1000 7))
        (plainWorld (ackPeer 1000000 0)) 10 ⟨RRQ, "f", "octet"⟩ ⟨"10.0.0.2", 4242, ""⟩).calls.map
        (fun r => r.pkt.BlockNum) = [1, 2] :=
  ((C2_block_numbers defaultConfig sampleCodec
    (memServer fileReader (List.replicate 1000 7)) (plainWorld (ackPeer 1000000 0)) ⟨RRQ, "f", "octet"⟩
    ⟨"10.0.0.2", 4242, ""⟩ 10).2.1 (by decide)).trans (by decide)

/-- C2 as stated fails: in the fully acknowledged transfer of a file of
`65535 * 512` bytes the 65536-th block sent carries the block number 0. -/
theorem C2_block_numbers_counterexample :
    (HandleReadReq defaultConfig sampleCodec
        (memServer fileReader (List.replicate 33553920 0))
        (plainWorld (ackPeer 1000000 0)) 65537 ⟨RRQ, "f", "octet"⟩ ⟨"10.0.0.2", 4242, ""⟩).ret =
      Ret.returned none ∧
    ∃ r, (HandleReadReq defaultConfig sampleCodec
        (memServer fileReader (List.replicate 33553920 0))
        (plainWorld (ackPeer 1000000 0)) 65537 ⟨RRQ, "f", "octet"⟩
          ⟨"10.0.0.2", 4242, ""⟩).calls[65535]? =
      some r ∧ r.pkt.BlockNum = 0 ∧ r.pkt.BlockNum ≠ 65536 :=
  wrap_at_65536 (List.replicate 33553920 0) (List.length_replicate _ _)

set_option maxRecDepth 100000 in
/-- C3 fails on the code: a reader that reports `io.EOF` together with a full
block of 512 bytes ends the transfer with that block; no shorter block
follows. -/
theorem C3_full_block_with_eof :
    (HandleReadReq defaultConfig sampleCodec (memServer eagerReader (List.replicate 512 7))
        (plainWorld (ackPeer 1000000 0)) 10 ⟨RRQ, "f", "octet"⟩ ⟨"10.0.0.2", 4242, ""⟩).ret =
      Ret.returned none ∧
    (HandleReadReq defaultConfig sampleCodec (memServer eagerReader (List.replicate 512 7))
        (plainWorld (ackPeer 1000000 0)) 10 ⟨RRQ, "f", "octet"⟩ ⟨"10.0.0.2", 4242, ""⟩).calls.map
        (fun r => r.pkt.Data.length) = [512] := by
  decide

/-- C4: while `sendDataPacket` awaits the ack for the block `d`, acks for
other block numbers leave the listener reading (it has no value for `ackch`
after them, and with nothing else received the call never returns `nil`) and
change nothing in what the call does; an ack with the block number of `d`
that arrives after only such acks and before the deadline, early enough for a
retransmission under way to be over before the deadline, makes the call
return `nil`, between its arrival and the deadline, and at the time of its
arrival when the writes take no time; and in a session a call of
`sendDataPacket` is followed by a call for the next block only if it
returned `nil`, which takes a matching ack read by its listener. -/
theorem C4_ack_matching (cfg : Config) (P : Codec) (fuel : Nat) (E : ConnEnv) (d : DataPacket)
    (pre rest : List (Nat × Recv)) (t : Nat) (bs : List Byte)
    (hR : 0 < cfg.RetransmitTime) (hw : ∀ j, E.writeErr j = none)
    (hrecv : E.recv = pre ++ (t, Recv.dgram bs) :: rest)
    (hpre : ∀ x ∈ pre, MismatchedAck P d.BlockNum x)
    (hack : P.ParsePacket (bs.take 256) = .ok (Packet.ack d.BlockNum))
    (ht : ∀ j, t + E.lat j < cfg.AckTimeout)
    (hfuel : cfg.AckTimeout / cfg.RetransmitTime + 1 ≤ fuel) :
    listen P d.BlockNum pre = none ∧
      (∀ n, (sendDataPacket cfg P n ⟨E.writeErr, pre, E.want, E.lat⟩ d).ret ≠
        Ret.returned none) ∧
      sendDataPacket cfg P fuel E d =
        sendDataPacket cfg P fuel ⟨E.writeErr, (t, Recv.dgram bs) :: rest, E.want, E.lat⟩ d ∧
      (sendDataPacket cfg P fuel E d).ret = Ret.returned none ∧
      t ≤ (sendDataPacket cfg P fuel E d).time ∧
      (sendDataPacket cfg P fuel E d).time < cfg.AckTimeout ∧
      ((∀ i, E.lat i = 0) → (sendDataPacket cfg P fuel E d).time = t) ∧
      ∀ (σ : Type) (s : Server σ) (W : World) (rrq : ReqPacket) (addr : UDPAddr) (n k : Nat)
        (r : SendRecord), (HandleReadReq cfg P s W n rrq addr).calls[k]? = some r →
        k + 1 < (HandleReadReq cfg P s W n rrq addr).calls.length →
        r.ret = Ret.returned none ∧
          (sendDataPacket cfg P n (W.conn k) r.pkt).ret = Ret.returned none ∧
          ∃ t1 bs1, (t1, Recv.dgram bs1) ∈ (W.conn k).recv ∧
            P.ParsePacket (bs1.take 256) = .ok (Packet.ack r.pkt.BlockNum) := by
  have hnone := listen_mismatched P d.BlockNum pre hpre
  have hl : listen P d.BlockNum E.recv = some (t, none) := by
    rw [hrecv, listen_append P d.BlockNum _ pre hpre, listen, hack]
    simp
  refine ⟨hnone, ?_, ?_, ?_⟩
  · intro n h
    obtain ⟨t1, h1⟩ := sendDataPacket_nil cfg P n _ d h
    simp only [hnone] at h1
    exact absurd h1 (by simp)
  · unfold sendDataPacket
    simp only [hrecv, listen_append P d.BlockNum _ pre hpre]
    rw [selectLoop_env cfg E ⟨E.writeErr, (t, Recv.dgram bs) :: rest, E.want, E.lat⟩ _ _ rfl rfl
      rfl]
  · obtain ⟨h1, h2, h3, h4⟩ := sendDataPacket_resolved cfg P fuel E d t none hR hw hl ht hfuel
    refine ⟨h1, h2, h3, h4, ?_⟩
    intro σ s W rrq addr n k r hk hlt
    obtain ⟨-, -, -, h4, h5⟩ := transfer_calls cfg P s W rrq addr n k r hk
    have hnil := (h5 hlt).1
    rw [h4] at hnil
    obtain ⟨t1, hl1⟩ := sendDataPacket_nil cfg P n _ r.pkt hnil
    obtain ⟨bs1, hm, hp⟩ := listen_nil P r.pkt.BlockNum _ t1 hl1
    exact ⟨(h5 hlt).1, hnil, t1, bs1, hm, hp⟩

/-- C4, run with the default timers on block 1, each write taking 20
microseconds: the peer sends an ack for block 5 after 3 s and the ack for
block 1 after 7 s; the call returns `nil`, no earlier than 7 s and before the
deadline. -/
theorem C4_ack_matching_witness :
    (sendDataPacket defaultConfig sampleCodec 10
      ⟨fun _ => none, [(3000000000, Recv.dgram (ackBytes 5)),
        (7000000000, Recv.dgram (ackBytes 1))], fun _ => SelCase.ackch, fun _ => 20000⟩
      ⟨[1, 2], 1⟩).ret = Ret.returned none ∧
    7000000000 ≤ (sendDataPacket defaultConfig sampleCodec 10
      ⟨fun _ => none, [(3000000000, Recv.dgram (ackBytes 5)),
        (7000000000, Recv.dgram (ackBytes 1))], fun _ => SelCase.ackch, fun _ => 20000⟩
      ⟨[1, 2], 1⟩).time ∧
    (sendDataPacket defaultConfig sampleCodec 10
      ⟨fun _ => none, [(3000000000, Recv.dgram (ackBytes 5)),
        (7000000000, Recv.dgram (ackBytes 1))], fun _ => SelCase.ackch, fun _ => 20000⟩
      ⟨[1, 2], 1⟩).time < 20000000000 := by
  have h := C4_ack_matching defaultConfig sampleCodec 10
    ⟨fun _ => none, [(3000000000, Recv.dgram (ackBytes 5)),
      (7000000000, Recv.dgram (ackBytes 1))], fun _ => SelCase.ackch, fun _ => 20000⟩ ⟨[1, 2], 1⟩
    [(3000000000, Recv.dgram (ackBytes 5))] [] 7000000000 (ackBytes 1)
    (by decide) (fun _ => rfl) rfl
    (fun x hx => by
      simp only [List.mem_singleton] at hx
      subst hx
      exact ⟨ackBytes 5, 5, rfl, ackBytes_parse 5 (by decide), by decide⟩)
    (ackBytes_parse 1 (by decide)) (fun _ => (by decide : 7000000000 + 20000 < defaultConfig.AckTimeout)) (by decide)
  exact ⟨h.2.2.2.1, h.2.2.2.2.1, h.2.2.2.2.2.1⟩

/-- C5: while `sendDataPacket` awaits the ack for the block `d`, if the first
datagram that is not an ack for another block fails to decode with the error
`e`, or decodes to a packet that is not an ack (then `e` is
`pkt.ErrPacketType`), whatever block number it carries, and it arrives before
the deadline, early enough for a retransmission under way to be over before
the deadline, the call returns the error `e`, between that arrival and the
deadline, and at the arrival when the writes take no time; and the loop of
`HandleReadReq` that made this call returns `e` with this call as its last. -/
theorem C5_protocol_error (cfg : Config) (P : Codec) (fuel : Nat) (E : ConnEnv) (d : DataPacket)
    (pre rest : List (Nat × Recv)) (t : Nat) (bs : List Byte) (e : GoError)
    (hR : 0 < cfg.RetransmitTime) (hw : ∀ j, E.writeErr j = none)
    (hrecv : E.recv = pre ++ (t, Recv.dgram bs) :: rest)
    (hpre : ∀ x ∈ pre, MismatchedAck P d.BlockNum x)
    (hbad : P.ParsePacket (bs.take 256) = .error e ∨
      (e = GoError.ErrPacketType ∧
        ∃ p, P.ParsePacket (bs.take 256) = .ok p ∧ ∀ n, p ≠ Packet.ack n))
    (ht : ∀ j, t + E.lat j < cfg.AckTimeout)
    (hfuel : cfg.AckTimeout / cfg.RetransmitTime + 1 ≤ fuel) :
    (sendDataPacket cfg P fuel E d).ret = Ret.returned (some e) ∧
      t ≤ (sendDataPacket cfg P fuel E d).time ∧
      (sendDataPacket cfg P fuel E d).time < cfg.AckTimeout ∧
      ((∀ i, E.lat i = 0) → (sendDataPacket cfg P fuel E d).time = t) ∧
      ∀ (σ : Type) (fi : Reader σ) (conn : Nat → ConnEnv) (n i : Nat) (st st1 : σ)
        (buf : List Byte) (err : Option GoError), conn i = E → buf.length = 512 →
        fi.Read st 512 = (d.Data, err, st1) → (err = none ∨ err = some GoError.EOF) →
        d.Data.length ≤ 512 →
        readLoop cfg P fi conn fuel (n + 1) st buf false d.BlockNum i =
          ⟨[⟨d, (sendDataPacket cfg P fuel E d).writes, Ret.returned (some e)⟩],
            Ret.returned (some e)⟩ := by
  have hl : listen P d.BlockNum E.recv = some (t, some e) := by
    rw [hrecv, listen_append P d.BlockNum _ pre hpre, listen]
    rcases hbad with h | ⟨he, p, hp, hn⟩
    · rw [h]
    · rw [hp, he]
      cases p with
      | ack n => exact absurd rfl (hn n)
      | req r => rfl
      | data d => rfl
      | error c m => rfl
  obtain ⟨h1, h2, h3, h4⟩ := sendDataPacket_resolved cfg P fuel E d t (some e) hR hw hl ht hfuel
  refine ⟨h1, h2, h3, h4, ?_⟩
  intro σ fi conn n i st st1 buf err hc hlen hread herr hbs
  rw [readLoop_send cfg P fi conn fuel n st st1 buf d.Data d.BlockNum i err hlen hread herr hbs, hc]
  have hd : (⟨d.Data, d.BlockNum⟩ : DataPacket) = d := rfl
  rw [hd, h1]

/-- C5, run with the default timers on block 1, each write taking 20
microseconds: after an ack for block 5 the peer sends a data packet numbered
1; the call returns `pkt.ErrPacketType`. -/
theorem C5_protocol_error_witness :
    (sendDataPacket defaultConfig sampleCodec 10
      ⟨fun _ => none, [(3000000000, Recv.dgram (ackBytes 5)),
        (7000000000, Recv.dgram (sampleCodec.Bytes ⟨[9], 1⟩))], fun _ => SelCase.ackch,
        fun _ => 20000⟩
      ⟨[1, 2], 1⟩).ret = Ret.returned (some GoError.ErrPacketType) :=
  (C5_protocol_error defaultConfig sampleCodec 10
    ⟨fun _ => none, [(3000000000, Recv.dgram (ackBytes 5)),
      (7000000000, Recv.dgram (sampleCodec.Bytes ⟨[9], 1⟩))], fun _ => SelCase.ackch,
      fun _ => 20000⟩ ⟨[1, 2], 1⟩
    [(3000000000, Recv.dgram (ackBytes 5))] [] 7000000000 (sampleCodec.Bytes ⟨[9], 1⟩)
    GoError.ErrPacketType
    (by decide) (fun _ => rfl) rfl
    (fun x hx => by
      simp only [List.mem_singleton] at hx
      subst hx
      exact ⟨ackBytes 5, 5, rfl, ackBytes_parse 5 (by decide), by decide⟩)
    (Or.inr ⟨rfl, Packet.data ⟨[9], 1⟩, rfl, fun n => by simp⟩)
    (fun _ => (by decide : 7000000000 + 20000 < defaultConfig.AckTimeout)) (by decide)).1

/-- C6, amended: if nothing the listener reports ever arrives for block `k`
and the writes succeed, `sendDataPacket` writes the serialized block, then
the identical bytes again at most `floor(AckTimeout / RetransmitTime)` times,
and returns `ErrTimeout`; the retransmissions do not move the deadline: the
return comes no earlier than `AckTimeout` and no later than `AckTimeout + L`
when each write takes at most `L`. When each write takes at least `l` the
retransmissions are at most `floor(AckTimeout / (RetransmitTime + l))`, and
when each takes at most `L` they are at least `c` whenever `c` periods of
`RetransmitTime + L` end before the deadline. -/
theorem C6_retransmissions (cfg : Config) (P : Codec) (fuel : Nat) (E : ConnEnv)
    (d : DataPacket) (hR : 0 < cfg.RetransmitTime) (hw : ∀ j, E.writeErr j = none)
    (hl : listen P d.BlockNum E.recv = none)
    (hfuel : cfg.AckTimeout / cfg.RetransmitTime + 1 ≤ fuel) :
    (sendDataPacket cfg P fuel E d).ret = Ret.returned (some GoError.ErrTimeout) ∧
      (sendDataPacket cfg P fuel E d).writes.head? = some (P.Bytes d) ∧
      (∀ w ∈ (sendDataPacket cfg P fuel E d).writes, w = P.Bytes d) ∧
      (sendDataPacket cfg P fuel E d).writes.length - 1 ≤
        cfg.AckTimeout / cfg.RetransmitTime ∧
      cfg.AckTimeout ≤ (sendDataPacket cfg P fuel E d).time ∧
      (∀ l, (∀ i, l ≤ E.lat i) →
        (sendDataPacket cfg P fuel E d).writes.length - 1 ≤
          cfg.AckTimeout / (cfg.RetransmitTime + l)) ∧
      ∀ L, (∀ i, E.lat i ≤ L) →
        (sendDataPacket cfg P fuel E d).time ≤ cfg.AckTimeout + L ∧
        ∀ c, c * (cfg.RetransmitTime + L) < cfg.AckTimeout →
          c ≤ (sendDataPacket cfg P fuel E d).writes.length - 1 := by
  obtain ⟨h1, h2, h3, h4⟩ := sendDataPacket_timeout cfg P fuel E d hR hw hl hfuel
  refine ⟨h1, sendDataPacket_head cfg P fuel E d (hw 0), sendDataPacket_writes cfg P fuel E d,
    Nat.sub_le_iff_le_add'.2 h2, h3,
    fun l hlo => sendDataPacket_atmost cfg P fuel E d l hR hlo hl,
    fun L hL => ⟨h4 L hL, fun c hc => ?_⟩⟩
  have hcle : c ≤ cfg.AckTimeout / cfg.RetransmitTime := by
    rw [Nat.le_div_iff_mul_le hR]
    have : c * cfg.RetransmitTime ≤ c * (cfg.RetransmitTime + L) :=
      Nat.mul_le_mul_left c (Nat.le_add_right _ _)
    omega
  have hcf : c + 1 ≤ fuel := le_trans (Nat.succ_le_succ hcle) hfuel
  have := sendDataPacket_atleast cfg P fuel E d L c hw hL hl hcf hc
  omega

/-- C6, amended, run with the default timers of 20 s and 5 s and a silent
peer, each write taking 20 microseconds: `ErrTimeout` between 20 s and 20 s
plus 20 microseconds, after exactly 3 retransmissions. -/
theorem C6_retransmissions_witness :
    (sendDataPacket defaultConfig sampleCodec 10 (silentPeer SelCase.retransmit 20000)
      ⟨[1, 2], 1⟩).ret = Ret.returned (some GoError.ErrTimeout) ∧
    (sendDataPacket defaultConfig sampleCodec 10 (silentPeer SelCase.retransmit 20000)
      ⟨[1, 2], 1⟩).writes.length - 1 ≤ 3 ∧
    3 ≤ (sendDataPacket defaultConfig sampleCodec 10 (silentPeer SelCase.retransmit 20000)
      ⟨[1, 2], 1⟩).writes.length - 1 ∧
    20000000000 ≤ (sendDataPacket defaultConfig sampleCodec 10
      (silentPeer SelCase.retransmit 20000) ⟨[1, 2], 1⟩).time ∧
    (sendDataPacket defaultConfig sampleCodec 10 (silentPeer SelCase.retransmit 20000)
      ⟨[1, 2], 1⟩).time ≤ 20000000000 + 20000 := by
  have h := C6_retransmissions defaultConfig sampleCodec 10 (silentPeer SelCase.retransmit 20000)
    ⟨[1, 2], 1⟩ (by decide) (fun _ => rfl) rfl (by decide)
  have h1 := h.2.2.2.2.2.1 20000 (fun _ => le_refl _)
  have h2 := h.2.2.2.2.2.2 20000 (fun _ => le_refl _)
  exact ⟨h.1, h1, h2.2 3 (by decide), h.2.2.2.2.1, h2.1⟩

/-- C6 as stated fails: with the default timers of 20 s and 5 s and a silent
peer, the writes taking 20 microseconds each, the fourth retransmit timer is
armed after 15 s and fires after the deadline, whatever `select` would
prefer: the block was retransmitted 3 times, not `floor(20 / 5) = 4` times,
when `ErrTimeout` is returned. -/
theorem C6_retransmissions_counterexample :
    (sendDataPacket defaultConfig sampleCodec 10 (silentPeer SelCase.retransmit 20000)
      ⟨[1, 2], 1⟩).ret = Ret.returned (some GoError.ErrTimeout) ∧
    (sendDataPacket defaultConfig sampleCodec 10 (silentPeer SelCase.retransmit 20000)
      ⟨[1, 2], 1⟩).writes.length = 1 + 3 ∧
    defaultConfig.AckTimeout / defaultConfig.RetransmitTime = 4 := by
  decide

/-- C7: in a session that has opened its file and sent `k` blocks that were
acknowledged, if the next read returns an error `e` other than `io.EOF`,
`HandleReadReq` returns `e` having made those `k` calls of `sendDataPacket`
and none for that read; if the read succeeds and `sendDataPacket` returns an
error `e` for its block, `HandleReadReq` returns `e` with that call as its
last. In every session each datagram written is the serialization of the
data block of its call (no error packet is written), every call but the last
returned `nil`, the last one returned `nil` or what the session returns, and
a session returns `nil` only if every call returned `nil`, each on a matching
ack read by its listener. -/
theorem C7_errors_abort {σ : Type} (cfg : Config) (P : Codec) (s : Server σ) (W : World)
    (rrq : ReqPacket) (addr : UDPAddr) (st st1 : σ) (k fuel : Nat) (bs : List Byte)
    (err : Option GoError) (e : GoError)
    (hopen : Opens s W rrq addr st) (hprog : Progress cfg P s.fi W.conn fuel st k)
    (hfuel : k < fuel) (hread : s.fi.Read (readerAfter s.fi st k) 512 = (bs, err, st1)) :
    (err = some e → e ≠ GoError.EOF →
      (HandleReadReq cfg P s W fuel rrq addr).ret = Ret.returned (some e) ∧
      (HandleReadReq cfg P s W fuel rrq addr).calls.length = k ∧
      ∀ r ∈ (HandleReadReq cfg P s W fuel rrq addr).calls, r.ret = Ret.returned none) ∧
    ((err = none ∨ err = some GoError.EOF) → bs.length ≤ 512 →
      (sendDataPacket cfg P fuel (W.conn k) ⟨bs, (k + 1) % 65536⟩).ret =
        Ret.returned (some e) →
      (HandleReadReq cfg P s W fuel rrq addr).ret = Ret.returned (some e) ∧
      (HandleReadReq cfg P s W fuel rrq addr).calls.length = k + 1 ∧
      (HandleReadReq cfg P s W fuel rrq addr).calls[k]? =
        some ⟨⟨bs, (k + 1) % 65536⟩,
          (sendDataPacket cfg P fuel (W.conn k) ⟨bs, (k + 1) % 65536⟩).writes,
          Ret.returned (some e)⟩) ∧
    ∀ (s1 : Server σ) (W1 : World) (rrq1 : ReqPacket) (addr1 : UDPAddr) (n : Nat),
      (∀ r ∈ (HandleReadReq cfg P s1 W1 n rrq1 addr1).calls, ∀ w ∈ r.writes,
        w = P.Bytes r.pkt) ∧
      (∀ i r, (HandleReadReq cfg P s1 W1 n rrq1 addr1).calls[i]? = some r →
        i + 1 < (HandleReadReq cfg P s1 W1 n rrq1 addr1).calls.length →
        r.ret = Ret.returned none) ∧
      (∀ r, (HandleReadReq cfg P s1 W1 n rrq1 addr1).calls.getLast? = some r →
        r.ret = Ret.returned none ∨ r.ret = (HandleReadReq cfg P s1 W1 n rrq1 addr1).ret) ∧
      ((HandleReadReq cfg P s1 W1 n rrq1 addr1).ret = Ret.returned none →
        ∀ i r, (HandleReadReq cfg P s1 W1 n rrq1 addr1).calls[i]? = some r →
          r.ret = Ret.returned none ∧
          ∃ t, listen P r.pkt.BlockNum (W1.conn i).recv = some (t, none)) := by
  obtain ⟨pre, buf1, p1, p2, p3, p4⟩ :=
    transfer_progress cfg P s W rrq addr st k fuel hopen hprog (Nat.le_of_lt hfuel)
  obtain ⟨m, hm⟩ : ∃ m, fuel - k = m + 1 := ⟨fuel - k - 1, by omega⟩
  rw [hm] at p4
  refine ⟨?_, ?_, ?_⟩
  · intro he hne
    subst he
    rw [readLoop_readErr cfg P s.fi W.conn fuel m _ st1 buf1 bs _ k e p2 hread hne] at p4
    rw [p4]
    simp only [List.append_nil]
    exact ⟨trivial, p1, p3⟩
  · intro herr hbs hsend
    rw [readLoop_send cfg P s.fi W.conn fuel m _ st1 buf1 bs _ k err p2 hread herr hbs,
      hsend] at p4
    rw [p4]
    simp only
    refine ⟨trivial, by simp [p1], ?_⟩
    rw [List.getElem?_append_right (by omega)]
    simp [p1]
  · intro s1 W1 rrq1 addr1 n
    refine ⟨?_, ?_, (transfer_rets cfg P s1 W1 rrq1 addr1 n).2, ?_⟩
    · intro r hr w hw
      obtain ⟨i, hi⟩ := List.getElem?_of_mem hr
      obtain ⟨-, -, h3, -, -⟩ := transfer_calls cfg P s1 W1 rrq1 addr1 n i r hi
      rw [h3] at hw
      exact sendDataPacket_writes cfg P n _ r.pkt w hw
    · intro i r hi hlt
      exact ((transfer_calls cfg P s1 W1 rrq1 addr1 n i r hi).2.2.2.2 hlt).1
    · intro hret i r hi
      have hnil := (transfer_rets cfg P s1 W1 rrq1 addr1 n).1 hret r (List.getElem?_mem hi)
      refine ⟨hnil, ?_⟩
      obtain ⟨-, -, -, h4, -⟩ := transfer_calls cfg P s1 W1 rrq1 addr1 n i r hi
      rw [h4] at hnil
      exact sendDataPacket_nil cfg P n _ r.pkt hnil

set_option maxRecDepth 100000 in
/-- C7, run twice on sessions whose first block of 512 bytes is
acknowledged: on a file whose second read fails the session returns the
storage error after one call; on a file of 1000 bytes whose peer falls silent
the session returns `ErrTimeout` after the second call. -/
theorem C7_errors_abort_witness :
    ((HandleReadReq defaultConfig sampleCodec (memServer brokenReader (List.replicate 600 7))
        (plainWorld droppingPeer) 10 ⟨RRQ, "f", "octet"⟩ ⟨"10.0.0.2", 4242, ""⟩).ret =
      Ret.returned (some (GoError.other 5)) ∧
    (HandleReadReq defaultConfig sampleCodec (memServer brokenReader (List.replicate 600 7))
        (plainWorld droppingPeer) 10 ⟨RRQ, "f", "octet"⟩ ⟨"10.0.0.2", 4242, ""⟩).calls.length =
      1) ∧
    ((HandleReadReq defaultConfig sampleCodec (memServer fileReader (List.replicate 1000 7))
        (plainWorld droppingPeer) 10 ⟨RRQ, "f", "octet"⟩ ⟨"10.0.0.2", 4242, ""⟩).ret =
      Ret.returned (some GoError.ErrTimeout) ∧
    (HandleReadReq defaultConfig sampleCodec (memServer fileReader (List.replicate 1000 7))
        (plainWorld droppingPeer) 10 ⟨RRQ, "f", "octet"⟩ ⟨"10.0.0.2", 4242, ""⟩).calls.length =
      2) := by
  have h1 := (C7_errors_abort defaultConfig sampleCodec
    (memServer brokenReader (List.replicate 600 7)) (plainWorld droppingPeer)
    ⟨RRQ, "f", "octet"⟩ ⟨"10.0.0.2", 4242, ""⟩ (List.replicate 600 7) (List.replicate 88 7) 1 10
    [] (some (GoError.other 5)) (GoError.other 5) (plainWorld_opens _ _ _ _ _)
    (fun i hi => by
      obtain rfl : i = 0 := by omega
      decide)
    (by decide) (by decide)).1 rfl (by decide)
  have h2 := (C7_errors_abort defaultConfig sampleCodec
    (memServer fileReader (List.replicate 1000 7)) (plainWorld droppingPeer)
    ⟨RRQ, "f", "octet"⟩ ⟨"10.0.0.2", 4242, ""⟩ (List.replicate 1000 7) [] 1 10
    (List.replicate 488 7) none GoError.ErrTimeout (plainWorld_opens _ _ _ _ _)
    (fun i hi => by
      obtain rfl : i = 0 := by omega
      decide)
    (by decide) (by decide)).2.1 (Or.inl rfl) (by decide) (by decide)
  exact ⟨⟨h1.1, h1.2.1⟩, ⟨h2.1, h2.2.1⟩⟩

/-- C8: a datagram received by `Serve` that fails to decode starts no
goroutine and leaves `Serve` receiving: the loop goes on with the next
datagram; one that decodes starts one goroutine, `HandleClient` on the
decoded packet and the sender of that datagram, and the loop goes on; an
error of the receive makes `Serve` return it; and `Serve` is this loop on
the datagrams of its socket once the socket is open. `HandleClient` on a packet that
is not a request calls neither handler and only logs; on a request with the
opcode of a read whose sender re-resolves, it calls `HandleReadReq` with that
request and the re-resolved address, which is the sender where the resolver
gives the address back; and it calls `HandleReadReq` in no other case. Every
call of `HandleReadReq` that `Serve` starts comes from a received datagram
that decodes to the request handed over, with the re-resolved address of the
sender of that very datagram. -/
theorem C8_dispatch {σ : Type} (cfg : Config) (P : Codec) (s : Server σ) (fuel : Nat) :
    (∀ (session : Nat → World) (dgram : List Byte) (ua : UDPAddr)
        (rest : List (Except GoError (List Byte × UDPAddr))) (k : Nat),
      (∀ e, P.ParsePacket (dgram.take TftpMaxPacketSize) = .error e →
        serveLoop cfg P s session fuel (.ok (dgram, ua) :: rest) k =
          serveLoop cfg P s session fuel rest (k + 1)) ∧
      (∀ packet, P.ParsePacket (dgram.take TftpMaxPacketSize) = .ok packet →
        serveLoop cfg P s session fuel (.ok (dgram, ua) :: rest) k =
          ⟨HandleClient cfg P s (session k) fuel ua packet ::
            (serveLoop cfg P s session fuel rest (k + 1)).spawned,
            (serveLoop cfg P s session fuel rest (k + 1)).ret⟩) ∧
      (∀ e, serveLoop cfg P s session fuel (.error e :: rest) k =
        ⟨[], Ret.returned (some e)⟩)) ∧
    (∀ (E : ServeEnv) (addr : String) (uaddr : UDPAddr), E.ResolveUDPAddr addr = .ok uaddr →
      E.listenErr uaddr = none →
      Serve cfg P s E fuel addr = serveLoop cfg P s E.session fuel E.recv 0) ∧
    (∀ (W : World) (addr : UDPAddr) (req : Packet), (∀ r, req ≠ Packet.req r) →
      HandleClient cfg P s W fuel addr req = Handled.dropped) ∧
    (∀ (W : World) (addr ca : UDPAddr) (rrq : ReqPacket), rrq.Opcode = RRQ →
      W.ResolveUDPAddr addr.String = .ok ca →
      HandleClient cfg P s W fuel addr (Packet.req rrq) =
        Handled.read rrq ca (HandleReadReq cfg P s W fuel rrq ca)) ∧
    (∀ (W : World) (addr : UDPAddr) (req : Packet) (rrq : ReqPacket) (ca : UDPAddr)
        (tr : Transfer), HandleClient cfg P s W fuel addr req = Handled.read rrq ca tr →
      req = Packet.req rrq ∧ rrq.Opcode = RRQ ∧ W.ResolveUDPAddr addr.String = .ok ca ∧
        tr = HandleReadReq cfg P s W fuel rrq ca ∧
        (W.ResolveUDPAddr addr.String = .ok addr → ca = addr)) ∧
    (∀ (session : Nat → World) (recv : List (Except GoError (List Byte × UDPAddr))) (k : Nat)
        (rrq : ReqPacket) (ca : UDPAddr) (tr : Transfer),
      Handled.read rrq ca tr ∈ (serveLoop cfg P s session fuel recv k).spawned →
      ∃ i dgram ua, recv[i]? = some (.ok (dgram, ua)) ∧
        P.ParsePacket (dgram.take TftpMaxPacketSize) = .ok (Packet.req rrq) ∧
        rrq.Opcode = RRQ ∧ (session (k + i)).ResolveUDPAddr ua.String = .ok ca ∧
        tr = HandleReadReq cfg P s (session (k + i)) fuel rrq ca) := by
  refine ⟨?_, ?_, ?_, ?_, ?_, ?_⟩
  · intro session dgram ua rest k
    refine ⟨fun e hp => ?_, fun packet hp => ?_, fun e => ?_⟩
    · rw [serveLoop, hp]
    · rw [serveLoop, hp]
    · rw [serveLoop]
  · intro E addr uaddr h1 h2
    simp only [Serve, h1, h2]
  · intro W addr req hreq
    cases req with
    | req r => exact absurd rfl (hreq r)
    | data d => rfl
    | ack n => rfl
    | error c m => rfl
  · intro W addr ca rrq hop hres
    simp only [HandleClient, hres, hop, if_true]
  · intro W addr req rrq ca tr h
    obtain ⟨h1, h2, h3, h4⟩ := HandleClient_read cfg P s W fuel addr req rrq ca tr h
    refine ⟨h1, h2, h3, h4, fun h5 => ?_⟩
    rw [h3] at h5
    injection h5
  · intro session recv k rrq ca tr h
    exact serveLoop_read cfg P s session fuel rrq ca tr recv k h

set_option maxRecDepth 100000 in
/-- C8, run on three datagrams from three senders, the first undecodable,
the second an ack, the third a read request from the IPv6 peer `[::1]:4242`:
`Serve` starts two goroutines, the first drops its packet, the second calls
`HandleReadReq` with the request and the address of the third sender, and
`Serve` is still receiving. -/
theorem C8_dispatch_witness :
    (Serve defaultConfig requestCodec (memServer fileReader [1, 2, 3]) sampleServe 10 ":69").ret =
      Ret.blocked ∧
    (Serve defaultConfig requestCodec (memServer fileReader [1, 2, 3]) sampleServe 10
      ":69").spawned =
      [Handled.dropped,
        Handled.read ⟨RRQ, "f", "octet"⟩ ⟨"::1", 4242, ""⟩
          (HandleReadReq defaultConfig requestCodec (memServer fileReader [1, 2, 3])
            (peerWorld (ackPeer 1000000 0)) 10 ⟨RRQ, "f", "octet"⟩ ⟨"::1", 4242, ""⟩)] := by
  have h := ((C8_dispatch defaultConfig requestCodec (memServer fileReader [1, 2, 3]) 10).1
    sampleServe.session [9, 9] ⟨"10.0.0.3", 5000, ""⟩
    [.ok (ackBytes 3, ⟨"10.0.0.4", 6000, ""⟩), .ok ([0, 1, 102, 0], ⟨"::1", 4242, ""⟩)] 0).1
    (GoError.other 1) rfl
  have hs : Serve defaultConfig requestCodec (memServer fileReader [1, 2, 3]) sampleServe 10 ":69" =
      serveLoop defaultConfig requestCodec (memServer fileReader [1, 2, 3]) sampleServe.session 10
        [.ok (ackBytes 3, ⟨"10.0.0.4", 6000, ""⟩), .ok ([0, 1, 102, 0], ⟨"::1", 4242, ""⟩)] 1 := by
    rw [(C8_dispatch defaultConfig requestCodec (memServer fileReader [1, 2, 3]) 10).2.1
      sampleServe ":69" ⟨"0.0.0.0", 69, ""⟩ rfl rfl, ← h]
    rfl
  rw [hs]
  exact ⟨rfl, rfl⟩

/-- C9: for a file-like byte source delivering the content `rem st`, with
every block acknowledged, the payloads of the data blocks `HandleReadReq`
sends, concatenated in send order, are the content byte for byte; and every
datagram written for a block, the first transmission and each
retransmission, is the serialization of that same block. -/
theorem C9_content_preserved {σ : Type} (cfg : Config) (P : Codec) (s : Server σ) (W : World)
    (rrq : ReqPacket) (addr : UDPAddr) (rem : σ → List Byte) (st : σ) (fuel : Nat)
    (hF : FileSource s.fi rem) (hopen : Opens s W rrq addr st)
    (hR : 0 < cfg.RetransmitTime) (hack : AllAcked cfg P W.conn)
    (hfuel : (rem st).length / 512 + 2 ≤ fuel)
    (hsend : cfg.AckTimeout / cfg.RetransmitTime + 1 ≤ fuel) :
    (HandleReadReq cfg P s W fuel rrq addr).ret = Ret.returned none ∧
      ((HandleReadReq cfg P s W fuel rrq addr).calls.map (fun r => r.pkt.Data)).flatten = rem st ∧
      ∀ r ∈ (HandleReadReq cfg P s W fuel rrq addr).calls,
        r.writes.head? = some (P.Bytes r.pkt) ∧ ∀ w ∈ r.writes, w = P.Bytes r.pkt := by
  obtain ⟨h1, h2⟩ := transfer_file cfg P s W rrq addr rem st fuel hF hopen hR hack hfuel hsend
  refine ⟨h1, ?_, ?_⟩
  · rw [h2]; exact chunks_join _ _
  · intro r hr
    obtain ⟨k, hk⟩ := List.getElem?_of_mem hr
    rw [HandleReadReq_opens cfg P s W fuel rrq addr st hopen] at hk
    obtain ⟨-, -, h3, -, -⟩ := readLoop_calls cfg P s.fi W.conn fuel fuel st _ false 1 0
      (by norm_num) k r hk
    rw [h3]
    refine ⟨?_, sendDataPacket_writes cfg P fuel _ r.pkt⟩
    apply sendDataPacket_head
    have := (hack k).1 0
    simpa using this

set_option maxRecDepth 100000 in
/-- C9, run on a file of 515 bytes with a peer that answers after one
retransmission: the session returns `nil`, the payloads add up to the file,
and each of the two calls wrote the serialization of its block twice. -/
theorem C9_content_preserved_witness :
    (HandleReadReq defaultConfig sampleCodec
        (memServer fileReader (List.replicate 512 7 ++ [1, 2, 3]))
        (plainWorld latePeer) 10 ⟨RRQ, "f", "octet"⟩ ⟨"10.0.0.2", 4242, ""⟩).ret =
      Ret.returned none ∧
    ((HandleReadReq defaultConfig sampleCodec
        (memServer fileReader (List.replicate 512 7 ++ [1, 2, 3]))
        (plainWorld latePeer) 10 ⟨RRQ, "f", "octet"⟩ ⟨"10.0.0.2", 4242, ""⟩).calls.map
        (fun r => r.pkt.Data)).flatten = List.replicate 512 7 ++ [1, 2, 3] ∧
    (HandleReadReq defaultConfig sampleCodec
        (memServer fileReader (List.replicate 512 7 ++ [1, 2, 3]))
        (plainWorld latePeer) 10 ⟨RRQ, "f", "octet"⟩ ⟨"10.0.0.2", 4242, ""⟩).calls.map
        (fun r => r.writes) =
      [[sampleCodec.Bytes ⟨List.replicate 512 7, 1⟩, sampleCodec.Bytes ⟨List.replicate 512 7, 1⟩],
        [sampleCodec.Bytes ⟨[1, 2, 3], 2⟩, sampleCodec.Bytes ⟨[1, 2, 3], 2⟩]] := by
  have h := C9_content_preserved defaultConfig sampleCodec
    (memServer fileReader (List.replicate 512 7 ++ [1, 2, 3])) (plainWorld latePeer)
    ⟨RRQ, "f", "octet"⟩ ⟨"10.0.0.2", 4242, ""⟩ (fun st => st) (List.replicate 512 7 ++ [1, 2, 3]) 10
    fileReader_source (plainWorld_opens _ _ _ _ _) (by decide)
    (ackPeer_acked defaultConfig 7000000000 20000 (by decide))
    (by rw [List.length_append, List.length_replicate]; decide) (by decide)
  exact ⟨h.1, h.2.1, by decide⟩

set_option maxRecDepth 100000 in
/-- C10: there is a byte source that obeys the contract of `io.Reader` and
holds 300 bytes, whose first read returns 100 bytes and no error while data
remains, on which `HandleReadReq`, with every block acknowledged, sends those
100 bytes as its only block and returns `nil`, 200 bytes short; and in
general, in a session that has sent `k` acknowledged blocks, a read that
yields fewer than 512 bytes, with `io.EOF` or without, makes `HandleReadReq`
send that block as its last and return `nil` once it is acknowledged. -/
theorem C10_short_read_ends :
    (∃ (fi : Reader (List Byte)) (c : List Byte),
      ReaderOK fi ∧ c.length = 300 ∧ readAll fi 10 c = c ∧
      (∃ bs st1, fi.Read c 512 = (bs, none, st1) ∧ bs.length < 512 ∧ readAll fi 10 st1 ≠ []) ∧
      (HandleReadReq defaultConfig sampleCodec (memServer fi c) (plainWorld (ackPeer 1000000 0)) 10
        ⟨RRQ, "f", "octet"⟩ ⟨"10.0.0.2", 4242, ""⟩).ret = Ret.returned none ∧
      (HandleReadReq defaultConfig sampleCodec (memServer fi c) (plainWorld (ackPeer 1000000 0)) 10
        ⟨RRQ, "f", "octet"⟩ ⟨"10.0.0.2", 4242, ""⟩).calls.map (fun r => r.pkt.Data) =
        [c.take 100] ∧
      ((HandleReadReq defaultConfig sampleCodec (memServer fi c) (plainWorld (ackPeer 1000000 0))
        10 ⟨RRQ, "f", "octet"⟩ ⟨"10.0.0.2", 4242, ""⟩).calls.map
          (fun r => r.pkt.Data.length)).sum < c.length) ∧
    (∀ (σ : Type) (cfg : Config) (P : Codec) (s : Server σ) (W : World) (rrq : ReqPacket)
        (addr : UDPAddr) (st st1 : σ) (k fuel : Nat) (bs : List Byte) (err : Option GoError),
      Opens s W rrq addr st → Progress cfg P s.fi W.conn fuel st k → k + 2 ≤ fuel →
      s.fi.Read (readerAfter s.fi st k) 512 = (bs, err, st1) →
      (err = none ∨ err = some GoError.EOF) → bs.length < 512 →
      (sendDataPacket cfg P fuel (W.conn k) ⟨bs, (k + 1) % 65536⟩).ret = Ret.returned none →
      (HandleReadReq cfg P s W fuel rrq addr).ret = Ret.returned none ∧
        (HandleReadReq cfg P s W fuel rrq addr).calls.length = k + 1 ∧
        (HandleReadReq cfg P s W fuel rrq addr).calls[k]? =
          some ⟨⟨bs, (k + 1) % 65536⟩,
            (sendDataPacket cfg P fuel (W.conn k) ⟨bs, (k + 1) % 65536⟩).writes,
            Ret.returned none⟩) := by
  refine ⟨⟨shortReader 100, List.replicate 300 7, shortReader_ok 100, by decide, by decide,
    ⟨List.replicate 100 7, List.replicate 200 7, by decide, by decide, by decide⟩,
    by decide, by decide, by decide⟩, ?_⟩
  intro σ cfg P s W rrq addr st st1 k fuel bs err hopen hprog hfuel hread herr hshort hsend
  exact transfer_short cfg P s W rrq addr st st1 k fuel bs err hopen hprog hfuel hread herr
    hshort hsend

set_option maxRecDepth 100000 in
/-- C10, run on the reader that delivers 100 bytes per call and a file of 300
bytes: the session sends the first 100 bytes as block 1, its only call, and
returns `nil`. -/
theorem C10_short_read_ends_witness :
    (HandleReadReq defaultConfig sampleCodec (memServer (shortReader 100) (List.replicate 300 7))
        (plainWorld (ackPeer 1000000 0)) 10 ⟨RRQ, "f", "octet"⟩ ⟨"10.0.0.2", 4242, ""⟩).ret =
      Ret.returned none ∧
    (HandleReadReq defaultConfig sampleCodec (memServer (shortReader 100) (List.replicate 300 7))
        (plainWorld (ackPeer 1000000 0)) 10 ⟨RRQ, "f", "octet"⟩
        ⟨"10.0.0.2", 4242, ""⟩).calls.length = 1 ∧
    (HandleReadReq defaultConfig sampleCodec (memServer (shortReader 100) (List.replicate 300 7))
        (plainWorld (ackPeer 1000000 0)) 10 ⟨RRQ, "f", "octet"⟩
        ⟨"10.0.0.2", 4242, ""⟩).calls[0]? =
      some ⟨⟨List.replicate 100 7, 1⟩,
        (sendDataPacket defaultConfig sampleCodec 10 (ackPeer 1000000 0 0)
          ⟨List.replicate 100 7, 1⟩).writes, Ret.returned none⟩ :=
  C10_short_read_ends.2 (List Byte) defaultConfig sampleCodec
    (memServer (shortReader 100) (List.replicate 300 7)) (plainWorld (ackPeer 1000000 0))
    ⟨RRQ, "f", "octet"⟩ ⟨"10.0.0.2", 4242, ""⟩ (List.replicate 300 7) (List.replicate 200 7) 0 10
    (List.replicate 100 7) none (plainWorld_opens _ _ _ _ _)
    (fun i hi => absurd hi (Nat.not_lt_zero i)) (by decide) (by decide) (Or.inl rfl) (by decide)
    (by decide)

end Tftp
